import Mathlib

/-!
Verification of the `em27_metadata` package (tum-esm/em27-metadata).

Shallow embedding conventions:

* `datetime.datetime` values are modelled as `Int`, counting seconds since an
  epoch that falls on second `0` of a minute (as the Unix epoch does).  The
  engine works at second resolution and the only arithmetic the source ever
  performs on datetimes is comparison and `± datetime.timedelta(seconds=1)`,
  which becomes `± 1` here.  `dt.second` becomes `dt % 60`.
* `float` payloads (`utc_offset`, calibration factors, coordinates) are
  modelled as `Rat`: the source never computes with them, it only copies and
  compares them, and the defaults `0`, `1.0` and `[1]` are exact.
* pydantic models become structures; `pydantic.ValidationError` /
  `AssertionError` / `ValueError` become `Except` error values.
* The generic time-series element types (`SensorTypes.Location`,
  `SensorTypes.DifferentUTCOffset`, `SensorTypes.DifferentPressureDataSource`,
  `SensorTypes.DifferentCalibrationFactors`) all consist of the two
  `TimeSeriesElement` bounds plus one payload, which `interfaces.py`
  manipulates uniformly through the `TimeseriesItem` type variable; they are
  modelled by one polymorphic record type with a `value` payload field.
-/

/-- One element of a sensor property time series: the two `TimeSeriesElement`
datetime bounds plus the per-series payload (`location_id`, `utc_offset`,
`source`, or the calibration factors).  Mirrors the `TimeseriesItem` type
variable of `em27_metadata/interfaces.py`. -/
structure TimeseriesItem (V : Type) where
  from_datetime : Int
  to_datetime : Int
  value : V
deriving DecidableEq, Repr

/-- `GasSpecificCalibrationFactors` from `em27_metadata/types.py`, with its
field defaults (`factors = [1]`, `scheme = None`, `note = None`). -/
structure GasSpecificCalibrationFactors where
  factors : List Rat := [1]
  scheme : Option String := none
  note : Option String := none
deriving DecidableEq, Repr

/-- `CalibrationFactors` from `em27_metadata/types.py`, with its field
defaults (`pressure = 1`, per-gas defaults). -/
structure CalibrationFactors where
  pressure : Rat := 1
  xco2 : GasSpecificCalibrationFactors := {}
  xch4 : GasSpecificCalibrationFactors := {}
  xco : GasSpecificCalibrationFactors := {}
deriving DecidableEq, Repr

/-- `LocationMetadata` from `em27_metadata/types.py`.  The coordinate fields
are carried as exact rationals; their range constraints belong to the excluded
loader layer. -/
structure LocationMetadata where
  location_id : String
  details : String := ""
  lon : Rat := 0
  lat : Rat := 0
  alt : Rat := 0
deriving DecidableEq, Repr

/-- The sensor schema used by `em27_metadata/interfaces.py`: a sensor id, a
serial number and the four property time series
(`locations`, `different_utc_offsets`, `different_pressure_data_sources`,
`different_calibration_factors`).  The payload of a `locations` element is its
`location_id`, of a `different_utc_offsets` element its `utc_offset`, of a
`different_pressure_data_sources` element its `source`, and of a
`different_calibration_factors` element its `CalibrationFactors` fields. -/
structure SensorMetadata where
  sensor_id : String
  serial_number : Int
  locations : List (TimeseriesItem String)
  different_utc_offsets : List (TimeseriesItem Rat)
  different_pressure_data_sources : List (TimeseriesItem String)
  different_calibration_factors : List (TimeseriesItem CalibrationFactors)
deriving DecidableEq, Repr

/-- `CampaignMetadata` from `em27_metadata/types.py`: an id, the two
`TimeSeriesElement` bounds, and the two reference lists. -/
structure CampaignMetadata where
  campaign_id : String
  from_datetime : Int
  to_datetime : Int
  sensor_ids : List String
  location_ids : List String
deriving DecidableEq, Repr

/-- `SensorDataContext` as constructed by `EM27MetadataInterface.get` in
`em27_metadata/interfaces.py` (the fields passed to its constructor there). -/
structure SensorDataContext where
  sensor_id : String
  serial_number : Int
  from_datetime : Int
  to_datetime : Int
  location : LocationMetadata
  utc_offset : Rat
  pressure_data_source : String
  calibration_factors : CalibrationFactors
  multiple_ctx_on_this_date : Bool
deriving DecidableEq, Repr

/-- Query-time failures of `EM27MetadataInterface.get`: the two `ValueError`s
raised for an unknown sensor id and for an inverted range (each carrying the
data interpolated into the message), and the `AssertionError` used for the
internal invariant checks ("This is a bug in the library"). -/
inductive GetError where
  | unknownSensor (sensor_id : String)
  | invalidRange (from_datetime to_datetime : Int)
  | internalAssertion
deriving DecidableEq, Repr

/-- The catalog object built by the `EM27MetadataInterface` constructor. -/
structure EM27MetadataInterface where
  locations : List LocationMetadata
  sensors : List SensorMetadata
  campaigns : List CampaignMetadata
deriving DecidableEq, Repr

/-- `zip(xs[:-1], xs[1:])`, the consecutive-pair iteration pattern used
throughout `interfaces.py` (breakpoint segments, series integrity checks,
gap-fill post-condition). -/
def adjacentPairs {α : Type} (l : List α) : List (α × α) :=
  l.zip l.tail

/-- The inner function `parse_ts_data` of `EM27MetadataInterface.get`
(`em27_metadata/interfaces.py`): drop the records with
`to_datetime <= from_datetime or from_datetime >= to_datetime` (relative to
the query window) and clamp the surviving records' bounds into the window. -/
def parse_ts_data {V : Type} (from_datetime to_datetime : Int) :
    List (TimeseriesItem V) → List (TimeseriesItem V)
  | [] => []
  | d :: ds =>
    if d.to_datetime ≤ from_datetime ∨ d.from_datetime ≥ to_datetime then
      parse_ts_data from_datetime to_datetime ds
    else
      { d with
        from_datetime := max d.from_datetime from_datetime,
        to_datetime := min d.to_datetime to_datetime } ::
        parse_ts_data from_datetime to_datetime ds

/-- The middle loop of `fill_ts_data_gaps_with_default`: emit every input
record in order and, between two consecutive records `d`, `d'` with
`d.to_datetime < d'.from_datetime - 1`, a synthetic record
`[d.to_datetime + 1, d'.from_datetime - 1]` carrying the default payload. -/
def fillGaps {V : Type} (default_value : V) :
    List (TimeseriesItem V) → List (TimeseriesItem V)
  | [] => []
  | [d] => [d]
  | d :: d' :: ds =>
    d ::
      ((if d.to_datetime < d'.from_datetime - 1 then
          [⟨d.to_datetime + 1, d'.from_datetime - 1, default_value⟩]
        else []) ++
        fillGaps default_value (d' :: ds))

/-- The last `to_datetime` of a nonempty list given as head and tail
(`ds[-1].to_datetime` in the source). -/
def lastToDatetime {V : Type} (d : TimeseriesItem V) :
    List (TimeseriesItem V) → Int
  | [] => d.to_datetime
  | d' :: ds => lastToDatetime d' ds

/-- The inner function `fill_ts_data_gaps_with_default` of
`EM27MetadataInterface.get`, without its trailing assertions (those are
modelled by `fill_checked`).  The `default_item`'s datetime bounds are
overwritten in every branch of the source before the copy is used, so only its
payload `default_value` is passed here. -/
def fill_ts_data_gaps_with_default {V : Type} (from_datetime to_datetime : Int)
    (ds : List (TimeseriesItem V)) (default_value : V) :
    List (TimeseriesItem V) :=
  match ds with
  | [] => [⟨from_datetime, to_datetime, default_value⟩]
  | d0 :: rest =>
    (if from_datetime < d0.from_datetime then
        [⟨from_datetime, d0.from_datetime - 1, default_value⟩]
      else []) ++
      fillGaps default_value (d0 :: rest) ++
      (if lastToDatetime d0 rest < to_datetime then
          [⟨lastToDatetime d0 rest + 1, to_datetime, default_value⟩]
        else [])

/-- `fill_ts_data_gaps_with_default` with the two trailing `assert`
statements of the source: the result must be nonempty and consecutive output
records must satisfy `to_datetime + 1 = from_datetime`; otherwise the
`AssertionError` ("This is a bug in the library") propagates out of `get`. -/
def fill_checked {V : Type} (from_datetime to_datetime : Int)
    (ds : List (TimeseriesItem V)) (default_value : V) :
    Except GetError (List (TimeseriesItem V)) :=
  let out := fill_ts_data_gaps_with_default from_datetime to_datetime ds default_value
  if !out.isEmpty &&
      (adjacentPairs out).all
        (fun p => p.1.to_datetime + 1 == p.2.from_datetime) then
    .ok out
  else
    .error .internalAssertion

/-- The filter inside `_get_segment_property`: the records whose closed
interval contains both segment bounds,
`p.from <= segment_from <= p.to and p.from <= segment_to <= p.to`. -/
def segmentCandidates {V : Type} (segment_from segment_to : Int)
    (property_list : List (TimeseriesItem V)) : List (TimeseriesItem V) :=
  property_list.filter
    (fun p =>
      decide (p.from_datetime ≤ segment_from) &&
        decide (segment_from ≤ p.to_datetime) &&
        decide (p.from_datetime ≤ segment_to) &&
        decide (segment_to ≤ p.to_datetime))

/-- The inner function `_get_segment_property` of `EM27MetadataInterface.get`:
`assert len(candidates) <= 1` raises the internal `AssertionError`, an empty
candidate list raises `IndexError` (returned as `none` here; `get` catches it
and skips the segment), and otherwise the unique candidate is returned. -/
def get_segment_property {V : Type} (segment_from segment_to : Int)
    (property_list : List (TimeseriesItem V)) :
    Except GetError (Option (TimeseriesItem V)) :=
  match segmentCandidates segment_from segment_to property_list with
  | [] => .ok none
  | [p] => .ok (some p)
  | _ :: _ :: _ => .error .internalAssertion

/-- One iteration of the breakpoint loop of `EM27MetadataInterface.get`: fetch
the four segment properties in source order (location, utc offset, pressure
data source, calibration factors); an `IndexError` from any of them skips the
segment (`ok none`), then the location id is resolved against the catalog
(failure there is the internal `AssertionError`), and the
`SensorDataContext` is built with `multiple_ctx_on_this_date=False`. -/
def resolve_segment (locations : List LocationMetadata) (sensor_id : String)
    (serial_number : Int) (sensor_locations : List (TimeseriesItem String))
    (utc_offsets : List (TimeseriesItem Rat))
    (pressure_data_sources : List (TimeseriesItem String))
    (calibration_factors : List (TimeseriesItem CalibrationFactors))
    (segment_from segment_to : Int) :
    Except GetError (Option SensorDataContext) :=
  match get_segment_property segment_from segment_to sensor_locations with
  | .error e => .error e
  | .ok none => .ok none
  | .ok (some sl) =>
    match get_segment_property segment_from segment_to utc_offsets with
    | .error e => .error e
    | .ok none => .ok none
    | .ok (some uo) =>
      match get_segment_property segment_from segment_to pressure_data_sources with
      | .error e => .error e
      | .ok none => .ok none
      | .ok (some pds) =>
        match get_segment_property segment_from segment_to calibration_factors with
        | .error e => .error e
        | .ok none => .ok none
        | .ok (some cf) =>
          match locations.find? (fun l => l.location_id == sl.value) with
          | none => .error .internalAssertion
          | some location =>
            .ok (some
              { sensor_id := sensor_id
                serial_number := serial_number
                from_datetime := segment_from
                to_datetime := segment_to
                location := location
                utc_offset := uo.value
                pressure_data_source := pds.value
                calibration_factors := cf.value
                multiple_ctx_on_this_date := false })

/-- The breakpoint loop of `EM27MetadataInterface.get`: iterate over the
adjacent breakpoint pairs in order, skipping segments without a property and
collecting the built contexts. -/
def build_contexts (locations : List LocationMetadata) (sensor_id : String)
    (serial_number : Int) (sensor_locations : List (TimeseriesItem String))
    (utc_offsets : List (TimeseriesItem Rat))
    (pressure_data_sources : List (TimeseriesItem String))
    (calibration_factors : List (TimeseriesItem CalibrationFactors)) :
    List (Int × Int) → Except GetError (List SensorDataContext)
  | [] => .ok []
  | p :: ps =>
    match resolve_segment locations sensor_id serial_number sensor_locations
      utc_offsets pressure_data_sources calibration_factors p.1 p.2 with
    | .error e => .error e
    | .ok none =>
      build_contexts locations sensor_id serial_number sensor_locations
        utc_offsets pressure_data_sources calibration_factors ps
    | .ok (some ctx) =>
      match build_contexts locations sensor_id serial_number sensor_locations
        utc_offsets pressure_data_sources calibration_factors ps with
      | .error e => .error e
      | .ok rest => .ok (ctx :: rest)

/-- The multiset of endpoints fed into the breakpoint computation of
`EM27MetadataInterface.get`: every `from_datetime` and `to_datetime` of every
record of the four processed series, in the source's enumeration order. -/
def endpointsOf (sensor_locations : List (TimeseriesItem String))
    (utc_offsets : List (TimeseriesItem Rat))
    (pressure_data_sources : List (TimeseriesItem String))
    (calibration_factors : List (TimeseriesItem CalibrationFactors)) :
    List Int :=
  sensor_locations.map (·.from_datetime) ++
    sensor_locations.map (·.to_datetime) ++
    utc_offsets.map (·.from_datetime) ++
    utc_offsets.map (·.to_datetime) ++
    pressure_data_sources.map (·.from_datetime) ++
    pressure_data_sources.map (·.to_datetime) ++
    calibration_factors.map (·.from_datetime) ++
    calibration_factors.map (·.to_datetime)

/-- The breakpoint list of `EM27MetadataInterface.get`:
`sorted(set(every from_datetime and to_datetime of every processed series))`. -/
def breakpointsOf (sensor_locations : List (TimeseriesItem String))
    (utc_offsets : List (TimeseriesItem Rat))
    (pressure_data_sources : List (TimeseriesItem String))
    (calibration_factors : List (TimeseriesItem CalibrationFactors)) :
    List Int :=
  List.insertionSort (· ≤ ·)
    (List.dedup
      (endpointsOf sensor_locations utc_offsets pressure_data_sources
        calibration_factors))

/-- `EM27MetadataInterface.get` from `em27_metadata/interfaces.py`.

The membership test `sensor_id not in self.sensor_ids` followed by
`next(filter(...))` is modelled by one `find?`: it fails exactly when the id
is absent, raising `ValueError(f'No location data for sensor_id "..."')`
(`GetError.unknownSensor`).  Then `from_datetime > to_datetime` raises the
range `ValueError` (`GetError.invalidRange`).  The default payloads passed to
`fill_ts_data_gaps_with_default` are `0` for the utc offset (modelled from the
spec: the `SensorTypes.DifferentUTCOffset` class with its `utc_offset = 0`
field default is not part of the provided sources), the sensor's own id for
the pressure data source (explicit in the source), and the
`CalibrationFactors` field defaults.  Finally the `multiple_ctx_on_this_date`
flag is set on every context when more than one context was built. -/
def EM27MetadataInterface.get (self : EM27MetadataInterface)
    (sensor_id : String) (from_datetime to_datetime : Int) :
    Except GetError (List SensorDataContext) :=
  match self.sensors.find? (fun s => s.sensor_id == sensor_id) with
  | none => .error (.unknownSensor sensor_id)
  | some sensor =>
    if from_datetime > to_datetime then
      .error (.invalidRange from_datetime to_datetime)
    else
      match fill_checked from_datetime to_datetime
        (parse_ts_data from_datetime to_datetime sensor.different_utc_offsets)
        (0 : Rat) with
      | .error e => .error e
      | .ok utc_offsets =>
        match fill_checked from_datetime to_datetime
          (parse_ts_data from_datetime to_datetime
            sensor.different_pressure_data_sources)
          sensor.sensor_id with
        | .error e => .error e
        | .ok pressure_data_sources =>
          match fill_checked from_datetime to_datetime
            (parse_ts_data from_datetime to_datetime
              sensor.different_calibration_factors)
            ({} : CalibrationFactors) with
          | .error e => .error e
          | .ok calibration_factors =>
            match build_contexts self.locations sensor.sensor_id
              sensor.serial_number
              (parse_ts_data from_datetime to_datetime sensor.locations)
              utc_offsets pressure_data_sources calibration_factors
              (adjacentPairs
                (breakpointsOf
                  (parse_ts_data from_datetime to_datetime sensor.locations)
                  utc_offsets pressure_data_sources calibration_factors)) with
            | .error e => .error e
            | .ok ctxs =>
              .ok
                (if ctxs.length > 1 then
                  ctxs.map (fun c => { c with multiple_ctx_on_this_date := true })
                else ctxs)

/-! ## The contiguous-cover predicate

`contiguousCover f t l` states that `l` is a nonempty sequence of records
whose closed intervals tile `[f, t]` exactly: the first record starts at `f`,
each record satisfies `from_datetime ≤ to_datetime`, each record is followed
immediately (`to_datetime + 1 = from_datetime` of the successor), and the last
record ends at `t`.  This is the shape that `get`'s comment asserts for the
gap-filled series, used both as a hypothesis and as a conclusion below. -/

def contiguousCover {V : Type} (f t : Int) : List (TimeseriesItem V) → Bool
  | [] => false
  | [r] =>
    r.from_datetime == f && decide (r.from_datetime ≤ r.to_datetime) &&
      r.to_datetime == t
  | r :: r' :: rest =>
    r.from_datetime == f && decide (r.from_datetime ≤ r.to_datetime) &&
      contiguousCover (r.to_datetime + 1) t (r' :: rest)

@[simp]
theorem contiguousCover_nil {V : Type} (f t : Int) :
    contiguousCover f t ([] : List (TimeseriesItem V)) = false := rfl

@[simp]
theorem contiguousCover_singleton {V : Type} (f t : Int)
    (r : TimeseriesItem V) :
    contiguousCover f t [r] =
      (r.from_datetime == f && decide (r.from_datetime ≤ r.to_datetime) &&
        r.to_datetime == t) := rfl

@[simp]
theorem contiguousCover_cons₂ {V : Type} (f t : Int) (r r' : TimeseriesItem V)
    (rest : List (TimeseriesItem V)) :
    contiguousCover f t (r :: r' :: rest) =
      (r.from_datetime == f && decide (r.from_datetime ≤ r.to_datetime) &&
        contiguousCover (r.to_datetime + 1) t (r' :: rest)) := rfl

theorem contiguousCover_ne_nil {V : Type} {f t : Int}
    {l : List (TimeseriesItem V)} (h : contiguousCover f t l = true) :
    l ≠ [] := by
  cases l with
  | nil => simp at h
  | cons r rest => simp

theorem contiguousCover_head {V : Type} {f t : Int} {r : TimeseriesItem V}
    {rest : List (TimeseriesItem V)}
    (h : contiguousCover f t (r :: rest) = true) : r.from_datetime = f := by
  cases rest with
  | nil => simp at h; exact h.1.1
  | cons r' rest' => simp at h; exact h.1.1

theorem contiguousCover_cons_of {V : Type} {f t : Int} {r : TimeseriesItem V}
    {l : List (TimeseriesItem V)} (h1 : r.from_datetime = f)
    (h2 : r.from_datetime ≤ r.to_datetime) (h3 : l ≠ [])
    (h4 : contiguousCover (r.to_datetime + 1) t l = true) :
    contiguousCover f t (r :: l) = true := by
  cases l with
  | nil => exact absurd rfl h3
  | cons r' rest' =>
    simp [h1, h4]
    omega

theorem contiguousCover_mem {V : Type} {f t : Int}
    {l : List (TimeseriesItem V)} (h : contiguousCover f t l = true) :
    ∀ r ∈ l, f ≤ r.from_datetime ∧ r.from_datetime ≤ r.to_datetime ∧
      r.to_datetime ≤ t := by
  induction l generalizing f with
  | nil => simp at h
  | cons r0 rest ih =>
    cases rest with
    | nil =>
      simp at h
      intro r hr
      simp at hr
      subst hr
      exact ⟨le_of_eq h.1.1.symm, h.1.2, le_of_eq h.2⟩
    | cons r' rest' =>
      simp only [contiguousCover_cons₂, Bool.and_eq_true, beq_iff_eq,
        decide_eq_true_eq] at h
      obtain ⟨⟨hf, hle⟩, hrest⟩ := h
      intro r hr
      rcases List.mem_cons.mp hr with hr0 | hrmem
      · subst hr0
        refine ⟨le_of_eq hf.symm, hle, ?_⟩
        have := ih hrest r' (List.mem_cons_self r' rest')
        omega
      · have := ih hrest r hrmem
        omega

theorem contiguousCover_last {V : Type} {f t : Int} {r : TimeseriesItem V}
    {l : List (TimeseriesItem V)} (h : contiguousCover f t l = true)
    (hlast : l.getLast? = some r) : r.to_datetime = t := by
  induction l generalizing f with
  | nil => simp at h
  | cons r0 rest ih =>
    cases rest with
    | nil =>
      simp at h hlast
      subst hlast
      exact h.2
    | cons r' rest' =>
      simp only [contiguousCover_cons₂, Bool.and_eq_true] at h
      have hlast' : (r' :: rest').getLast? = some r := by
        rw [List.getLast?_cons_cons] at hlast
        exact hlast
      exact ih h.2 hlast'

theorem contiguousCover_covers {V : Type} {f t : Int}
    {l : List (TimeseriesItem V)} (h : contiguousCover f t l = true)
    {x : Int} :
    f ≤ x → x ≤ t → ∃ r ∈ l, r.from_datetime ≤ x ∧ x ≤ r.to_datetime := by
  induction l generalizing f with
  | nil => simp at h
  | cons r0 rest ih =>
    intro hx1 hx2
    cases rest with
    | nil =>
      simp at h
      exact ⟨r0, List.mem_cons_self r0 [], by omega, by omega⟩
    | cons r' rest' =>
      simp only [contiguousCover_cons₂, Bool.and_eq_true, beq_iff_eq,
        decide_eq_true_eq] at h
      obtain ⟨⟨hf, hle⟩, hrest⟩ := h
      by_cases hxr : x ≤ r0.to_datetime
      · exact ⟨r0, List.mem_cons_self _ _, by omega, hxr⟩
      · obtain ⟨r, hrmem, hr⟩ := ih hrest (by omega) hx2
        exact ⟨r, List.mem_cons_of_mem _ hrmem, hr⟩

theorem contiguousCover_pairwise {V : Type} {f t : Int}
    {l : List (TimeseriesItem V)} (h : contiguousCover f t l = true) :
    l.Pairwise (fun a b => a.to_datetime < b.from_datetime) := by
  induction l generalizing f with
  | nil => simp
  | cons r0 rest ih =>
    cases rest with
    | nil => simp
    | cons r' rest' =>
      simp only [contiguousCover_cons₂, Bool.and_eq_true] at h
      refine List.Pairwise.cons ?_ (ih h.2)
      intro b hb
      have := contiguousCover_mem h.2 b hb
      omega

theorem contiguousCover_next {V : Type} {f t : Int}
    {l : List (TimeseriesItem V)} (h : contiguousCover f t l = true)
    {r : TimeseriesItem V} (hr : r ∈ l) (hne : r.to_datetime ≠ t) :
    ∃ r' ∈ l, r'.from_datetime = r.to_datetime + 1 := by
  induction l generalizing f with
  | nil => simp at h
  | cons r0 rest ih =>
    cases rest with
    | nil =>
      simp at h hr
      subst hr
      exact absurd h.2 hne
    | cons r' rest' =>
      simp only [contiguousCover_cons₂, Bool.and_eq_true, beq_iff_eq,
        decide_eq_true_eq] at h
      obtain ⟨⟨hf, hle⟩, hrest⟩ := h
      rcases List.mem_cons.mp hr with hr0 | hrmem
      · subst hr0
        have := contiguousCover_head hrest
        exact ⟨r', List.mem_cons_of_mem _ (List.mem_cons_self _ _), this⟩
      · obtain ⟨r'', hmem, heq⟩ := ih hrest hrmem
        exact ⟨r'', List.mem_cons_of_mem _ hmem, heq⟩

theorem contiguousCover_prev {V : Type} {f t : Int}
    {l : List (TimeseriesItem V)} (h : contiguousCover f t l = true)
    {r : TimeseriesItem V} (hr : r ∈ l) (hne : r.from_datetime ≠ f) :
    ∃ r' ∈ l, r'.to_datetime = r.from_datetime - 1 := by
  induction l generalizing f with
  | nil => simp at h
  | cons r0 rest ih =>
    cases rest with
    | nil =>
      simp at h hr
      subst hr
      exact absurd h.1.1 hne
    | cons r' rest' =>
      simp only [contiguousCover_cons₂, Bool.and_eq_true, beq_iff_eq,
        decide_eq_true_eq] at h
      obtain ⟨⟨hf, hle⟩, hrest⟩ := h
      rcases List.mem_cons.mp hr with hr0 | hrmem
      · subst hr0
        exact absurd hf hne
      · by_cases hstart : r.from_datetime = r0.to_datetime + 1
        · exact ⟨r0, List.mem_cons_self _ _, by omega⟩
        · obtain ⟨r'', hmem, heq⟩ := ih hrest hrmem hstart
          exact ⟨r'', List.mem_cons_of_mem _ hmem, heq⟩

theorem contiguousCover_append {V : Type} {f m t : Int}
    {l1 l2 : List (TimeseriesItem V)} (h1 : contiguousCover f m l1 = true)
    (h2 : contiguousCover (m + 1) t l2 = true) :
    contiguousCover f t (l1 ++ l2) = true := by
  induction l1 generalizing f with
  | nil => simp at h1
  | cons r0 rest ih =>
    cases rest with
    | nil =>
      simp at h1
      obtain ⟨⟨hf, hle⟩, hm⟩ := h1
      refine contiguousCover_cons_of hf hle (contiguousCover_ne_nil h2) ?_
      rw [hm]
      exact h2
    | cons r' rest' =>
      simp only [contiguousCover_cons₂, Bool.and_eq_true, beq_iff_eq,
        decide_eq_true_eq] at h1
      obtain ⟨⟨hf, hle⟩, hrest⟩ := h1
      have := ih hrest
      refine contiguousCover_cons_of hf hle (by simp) ?_
      simpa using this

theorem contiguousCover_chain' {V : Type} {f t : Int}
    {l : List (TimeseriesItem V)} (h : contiguousCover f t l = true) :
    l.Chain' (fun a b => a.to_datetime + 1 = b.from_datetime) := by
  induction l generalizing f with
  | nil => simp
  | cons r0 rest ih =>
    cases rest with
    | nil => simp
    | cons r' rest' =>
      simp only [contiguousCover_cons₂, Bool.and_eq_true] at h
      have hhead := contiguousCover_head h.2
      exact List.Chain'.cons hhead.symm (ih h.2)

/-! ## Properties of the crop operation `parse_ts_data` -/

theorem parse_ts_data_eq_filter_map {V : Type} (f t : Int)
    (ds : List (TimeseriesItem V)) :
    parse_ts_data f t ds =
      (ds.filter
          (fun d => decide (f < d.to_datetime) && decide (d.from_datetime < t))).map
        (fun d =>
          { d with
            from_datetime := max d.from_datetime f,
            to_datetime := min d.to_datetime t }) := by
  induction ds with
  | nil => rfl
  | cons d ds ih =>
    by_cases h : d.to_datetime ≤ f ∨ d.from_datetime ≥ t
    · rw [parse_ts_data, if_pos h, ih, List.filter_cons]
      have hfalse :
          (decide (f < d.to_datetime) && decide (d.from_datetime < t)) = false := by
        simp only [Bool.and_eq_false_iff, decide_eq_false_iff_not, not_lt]
        omega
      rw [hfalse]
      simp
    · rw [parse_ts_data, if_neg h, ih, List.filter_cons]
      have htrue :
          (decide (f < d.to_datetime) && decide (d.from_datetime < t)) = true := by
        simp only [Bool.and_eq_true, decide_eq_true_eq]
        omega
      rw [htrue]
      simp

theorem parse_ts_data_mem {V : Type} {f t : Int} {ds : List (TimeseriesItem V)}
    {r : TimeseriesItem V} (hr : r ∈ parse_ts_data f t ds) :
    ∃ d ∈ ds, f < d.to_datetime ∧ d.from_datetime < t ∧
      r.from_datetime = max d.from_datetime f ∧
      r.to_datetime = min d.to_datetime t ∧ r.value = d.value := by
  rw [parse_ts_data_eq_filter_map] at hr
  obtain ⟨d, hd, hclip⟩ := List.mem_map.mp hr
  obtain ⟨hdmem, hdpred⟩ := List.mem_filter.mp hd
  simp only [Bool.and_eq_true, decide_eq_true_eq] at hdpred
  exact ⟨d, hdmem, hdpred.1, hdpred.2, by rw [← hclip], by rw [← hclip],
    by rw [← hclip]⟩

theorem parse_ts_data_pairwise {V : Type} (f t : Int)
    {ds : List (TimeseriesItem V)}
    (h : ds.Pairwise (fun a b => a.to_datetime < b.from_datetime)) :
    (parse_ts_data f t ds).Pairwise
      (fun a b => a.to_datetime < b.from_datetime) := by
  rw [parse_ts_data_eq_filter_map]
  rw [List.pairwise_map]
  refine List.Pairwise.imp ?_ (h.filter _)
  intro a b hab
  simp only []
  omega

theorem parse_ts_data_bounds {V : Type} {f t : Int}
    {ds : List (TimeseriesItem V)} (hft : f ≤ t)
    (hwf : ∀ d ∈ ds, d.from_datetime ≤ d.to_datetime) :
    ∀ r ∈ parse_ts_data f t ds,
      f ≤ r.from_datetime ∧ r.from_datetime ≤ r.to_datetime ∧
        r.to_datetime ≤ t := by
  intro r hr
  obtain ⟨d, hdmem, h1, h2, h3, h4, _⟩ := parse_ts_data_mem hr
  have := hwf d hdmem
  omega

theorem parse_ts_data_strict {V : Type} {f t : Int}
    {ds : List (TimeseriesItem V)} (hft : f < t)
    (hwf : ∀ d ∈ ds, d.from_datetime < d.to_datetime) :
    ∀ r ∈ parse_ts_data f t ds, r.from_datetime < r.to_datetime := by
  intro r hr
  obtain ⟨d, hdmem, h1, h2, h3, h4, _⟩ := parse_ts_data_mem hr
  have := hwf d hdmem
  omega

theorem parse_ts_data_aligned {V : Type} {f t : Int}
    {ds : List (TimeseriesItem V)}
    (hal : ∀ d ∈ ds, d.from_datetime % 60 = 0 ∧ d.to_datetime % 60 = 59) :
    ∀ r ∈ parse_ts_data f t ds,
      (r.from_datetime % 60 = 0 ∨ r.from_datetime = f) ∧
        (r.to_datetime % 60 = 59 ∨ r.to_datetime = t) := by
  intro r hr
  obtain ⟨d, hdmem, h1, h2, h3, h4, _⟩ := parse_ts_data_mem hr
  have := hal d hdmem
  constructor
  · rcases max_choice d.from_datetime f with hm | hm <;> rw [hm] at h3 <;> omega
  · rcases min_choice d.to_datetime t with hm | hm <;> rw [hm] at h4 <;> omega

/-! ## Basic facts about `adjacentPairs` -/

@[simp]
theorem adjacentPairs_nil {α : Type} : adjacentPairs ([] : List α) = [] := rfl

@[simp]
theorem adjacentPairs_singleton {α : Type} (a : α) :
    adjacentPairs [a] = [] := rfl

@[simp]
theorem adjacentPairs_cons₂ {α : Type} (a b : α) (l : List α) :
    adjacentPairs (a :: b :: l) = (a, b) :: adjacentPairs (b :: l) := rfl

theorem adjacentPairs_mem {α : Type} {l : List α} {p : α × α}
    (hp : p ∈ adjacentPairs l) : p.1 ∈ l ∧ p.2 ∈ l := by
  induction l with
  | nil => simp at hp
  | cons a l ih =>
    cases l with
    | nil => simp at hp
    | cons b l' =>
      rw [adjacentPairs_cons₂] at hp
      rcases List.mem_cons.mp hp with hab | htail
      · subst hab
        exact ⟨List.mem_cons_self _ _,
          List.mem_cons_of_mem _ (List.mem_cons_self _ _)⟩
      · obtain ⟨h1, h2⟩ := ih htail
        exact ⟨List.mem_cons_of_mem _ h1, List.mem_cons_of_mem _ h2⟩

theorem pairwise_adjacentPairs {α : Type} {R : α → α → Prop} {l : List α}
    (h : l.Pairwise R) : ∀ p ∈ adjacentPairs l, R p.1 p.2 := by
  induction l with
  | nil => simp
  | cons a l ih =>
    cases l with
    | nil => simp
    | cons b l' =>
      intro p hp
      rw [adjacentPairs_cons₂] at hp
      rcases List.mem_cons.mp hp with hab | htail
      · subst hab
        exact (List.pairwise_cons.mp h).1 b (List.mem_cons_self _ _)
      · exact ih (List.pairwise_cons.mp h).2 p htail

/-! ## Properties of the gap-fill operation -/

theorem fillGaps_ne_nil {V : Type} (v : V) (d : TimeseriesItem V)
    (l : List (TimeseriesItem V)) : fillGaps v (d :: l) ≠ [] := by
  cases l <;> simp [fillGaps]

theorem fillGaps_head {V : Type} (v : V) (d : TimeseriesItem V)
    (l : List (TimeseriesItem V)) :
    (fillGaps v (d :: l)).head? = some d := by
  cases l <;> simp [fillGaps]

theorem lastToDatetime_mem {V : Type} (d : TimeseriesItem V)
    (l : List (TimeseriesItem V)) :
    ∃ r ∈ d :: l, r.to_datetime = lastToDatetime d l := by
  induction l generalizing d with
  | nil => exact ⟨d, List.mem_cons_self _ _, rfl⟩
  | cons d' l' ih =>
    obtain ⟨r, hmem, hr⟩ := ih d'
    exact ⟨r, List.mem_cons_of_mem _ hmem, hr⟩

theorem fillGaps_decomp {V : Type} {v : V} {ds : List (TimeseriesItem V)}
    {r : TimeseriesItem V} (hr : r ∈ fillGaps v ds) :
    r ∈ ds ∨
      ∃ p ∈ adjacentPairs ds,
        p.1.to_datetime < p.2.from_datetime - 1 ∧
          r = ⟨p.1.to_datetime + 1, p.2.from_datetime - 1, v⟩ := by
  induction ds with
  | nil => simp [fillGaps] at hr
  | cons d rest ih =>
    cases rest with
    | nil =>
      simp [fillGaps] at hr
      exact Or.inl (by simp [hr])
    | cons d' rest' =>
      rw [fillGaps] at hr
      rcases List.mem_cons.mp hr with hd | htail
      · exact Or.inl (hd ▸ List.mem_cons_self _ _)
      · rcases List.mem_append.mp htail with hgap | hrec
        · by_cases hcond : d.to_datetime < d'.from_datetime - 1
          · rw [if_pos hcond] at hgap
            simp at hgap
            exact Or.inr ⟨(d, d'), List.mem_cons_self _ _, hcond, by simp [hgap]⟩
          · rw [if_neg hcond] at hgap
            simp at hgap
        · rcases ih hrec with hmem | ⟨p, hp, hcond, hform⟩
          · exact Or.inl (List.mem_cons_of_mem _ hmem)
          · refine Or.inr ⟨p, ?_, hcond, hform⟩
            rw [adjacentPairs_cons₂]
            exact List.mem_cons_of_mem _ hp

theorem fill_ts_data_gaps_decomp {V : Type} {f t : Int} {v : V}
    {ds : List (TimeseriesItem V)} {r : TimeseriesItem V}
    (hr : r ∈ fill_ts_data_gaps_with_default f t ds v) :
    r ∈ ds ∨ r.value = v := by
  cases ds with
  | nil =>
    simp [fill_ts_data_gaps_with_default] at hr
    exact Or.inr (by simp [hr])
  | cons d0 rest =>
    rw [fill_ts_data_gaps_with_default] at hr
    rcases List.mem_append.mp hr with hpre | hpost
    · rcases List.mem_append.mp hpre with hfirst | hmid
      · by_cases hcond : f < d0.from_datetime
        · rw [if_pos hcond] at hfirst
          simp at hfirst
          exact Or.inr (by simp [hfirst])
        · rw [if_neg hcond] at hfirst
          simp at hfirst
      · rcases fillGaps_decomp hmid with hmem | ⟨p, hp, hcond, hform⟩
        · exact Or.inl hmem
        · exact Or.inr (by simp [hform])
    · by_cases hcond : lastToDatetime d0 rest < t
      · rw [if_pos hcond] at hpost
        simp at hpost
        exact Or.inr (by simp [hpost])
      · rw [if_neg hcond] at hpost
        simp at hpost

theorem fillGaps_cover {V : Type} {v : V} {d0 : TimeseriesItem V}
    {rest : List (TimeseriesItem V)}
    (hpw : (d0 :: rest).Pairwise (fun a b => a.to_datetime < b.from_datetime))
    (hwf : ∀ r ∈ d0 :: rest, r.from_datetime ≤ r.to_datetime) :
    contiguousCover d0.from_datetime (lastToDatetime d0 rest)
      (fillGaps v (d0 :: rest)) = true := by
  induction rest generalizing d0 with
  | nil =>
    simp [fillGaps, lastToDatetime]
    exact hwf d0 (List.mem_cons_self _ _)
  | cons d' rest' ih =>
    have hd0le : d0.from_datetime ≤ d0.to_datetime :=
      hwf d0 (List.mem_cons_self _ _)
    have hd0d' : d0.to_datetime < d'.from_datetime :=
      (List.pairwise_cons.mp hpw).1 d' (List.mem_cons_self _ _)
    have ihres := ih (List.pairwise_cons.mp hpw).2
      (fun r hr => hwf r (List.mem_cons_of_mem _ hr))
    rw [fillGaps]
    have hlast : lastToDatetime d0 (d' :: rest') = lastToDatetime d' rest' := rfl
    rw [hlast]
    refine contiguousCover_cons_of rfl hd0le ?_ ?_
    · intro hcontra
      exact fillGaps_ne_nil v d' rest' (List.append_eq_nil.mp hcontra).2
    · by_cases hcond : d0.to_datetime < d'.from_datetime - 1
      · rw [if_pos hcond]
        refine contiguousCover_append (m := d'.from_datetime - 1) ?_ ?_
        · simp
          omega
        · rw [show d'.from_datetime - 1 + 1 = d'.from_datetime by omega]
          exact ihres
      · rw [if_neg hcond]
        simp only [List.nil_append]
        rw [show d0.to_datetime + 1 = d'.from_datetime by omega]
        exact ihres

theorem fill_ts_data_gaps_cover {V : Type} {f t : Int} {v : V}
    {ds : List (TimeseriesItem V)} (hft : f ≤ t)
    (hpw : ds.Pairwise (fun a b => a.to_datetime < b.from_datetime))
    (hbd : ∀ r ∈ ds, f ≤ r.from_datetime ∧ r.from_datetime ≤ r.to_datetime ∧
      r.to_datetime ≤ t) :
    contiguousCover f t (fill_ts_data_gaps_with_default f t ds v) = true := by
  cases ds with
  | nil =>
    simp [fill_ts_data_gaps_with_default]
    exact hft
  | cons d0 rest =>
    rw [fill_ts_data_gaps_with_default]
    have hmid := fillGaps_cover (v := v) hpw (fun r hr => (hbd r hr).2.1)
    have hlastle : lastToDatetime d0 rest ≤ t := by
      obtain ⟨r, hmem, hr⟩ := lastToDatetime_mem d0 rest
      have := hbd r hmem
      omega
    have hfirstge : f ≤ d0.from_datetime :=
      (hbd d0 (List.mem_cons_self _ _)).1
    have hleft :
        contiguousCover f (lastToDatetime d0 rest)
          ((if f < d0.from_datetime then
              [⟨f, d0.from_datetime - 1, v⟩]
            else []) ++ fillGaps v (d0 :: rest)) = true := by
      by_cases hcond : f < d0.from_datetime
      · rw [if_pos hcond]
        refine contiguousCover_append (m := d0.from_datetime - 1) ?_ ?_
        · simp
          omega
        · rw [show d0.from_datetime - 1 + 1 = d0.from_datetime by omega]
          exact hmid
      · rw [if_neg hcond]
        simp only [List.nil_append]
        rw [show f = d0.from_datetime by omega]
        exact hmid
    by_cases hcond : lastToDatetime d0 rest < t
    · rw [if_pos hcond]
      refine contiguousCover_append (m := lastToDatetime d0 rest) hleft ?_
      simp
      omega
    · rw [if_neg hcond]
      rw [List.append_nil]
      rw [show t = lastToDatetime d0 rest by omega]
      exact hleft

theorem fill_ts_data_gaps_ends_aligned {V : Type} {f t : Int} {v : V}
    {ds : List (TimeseriesItem V)} (hft : f < t) (hfal : f % 60 = 0)
    (htal : t % 60 = 59)
    (hpw : ds.Pairwise (fun a b => a.to_datetime < b.from_datetime))
    (hbd : ∀ r ∈ ds, f ≤ r.from_datetime ∧ r.from_datetime ≤ r.to_datetime ∧
      r.to_datetime ≤ t)
    (hal : ∀ r ∈ ds, (r.from_datetime % 60 = 0 ∨ r.from_datetime = f) ∧
      (r.to_datetime % 60 = 59 ∨ r.to_datetime = t)) :
    ∀ r ∈ fill_ts_data_gaps_with_default f t ds v,
      r.to_datetime % 60 = 59 ∨ r.to_datetime = t := by
  intro r hr
  cases ds with
  | nil =>
    simp [fill_ts_data_gaps_with_default] at hr
    right
    simp [hr]
  | cons d0 rest =>
    rw [fill_ts_data_gaps_with_default] at hr
    rcases List.mem_append.mp hr with hpre | hpost
    · rcases List.mem_append.mp hpre with hfirst | hmid
      · by_cases hcond : f < d0.from_datetime
        · rw [if_pos hcond] at hfirst
          simp at hfirst
          have hd0 := (hal d0 (List.mem_cons_self _ _)).1
          have : d0.from_datetime % 60 = 0 := by
            rcases hd0 with h | h
            · exact h
            · omega
          left
          rw [hfirst]
          simp
          omega
        · rw [if_neg hcond] at hfirst
          simp at hfirst
      · rcases fillGaps_decomp hmid with hmem | ⟨p, hp, hcond, hform⟩
        · exact (hal r hmem).2
        · have hpq := pairwise_adjacentPairs hpw p hp
          have hp1 := adjacentPairs_mem hp
          have hb1 := hbd p.1 hp1.1
          have ha2 := (hal p.2 hp1.2).1
          have : p.2.from_datetime % 60 = 0 := by
            rcases ha2 with h | h
            · exact h
            · omega
          left
          rw [hform]
          simp
          omega
    · by_cases hcond : lastToDatetime d0 rest < t
      · rw [if_pos hcond] at hpost
        simp at hpost
        right
        simp [hpost]
      · rw [if_neg hcond] at hpost
        simp at hpost

/-! ## Sorted breakpoint lists and their adjacent pairs -/

theorem sorted_adjacent {l : List Int} (h : l.Pairwise (· < ·))
    {p : Int × Int} (hp : p ∈ adjacentPairs l) :
    p.1 < p.2 ∧ ∀ x ∈ l, x ≤ p.1 ∨ p.2 ≤ x := by
  induction l with
  | nil => simp at hp
  | cons a l ih =>
    cases l with
    | nil => simp at hp
    | cons b l' =>
      obtain ⟨ha, hpw⟩ := List.pairwise_cons.mp h
      rw [adjacentPairs_cons₂] at hp
      rcases List.mem_cons.mp hp with hab | htail
      · subst hab
        refine ⟨ha b (List.mem_cons_self _ _), ?_⟩
        intro x hx
        rcases List.mem_cons.mp hx with hxa | hxl
        · exact Or.inl (le_of_eq hxa)
        · rcases List.mem_cons.mp hxl with hxb | hxl'
          · exact Or.inr (le_of_eq hxb.symm)
          · exact Or.inr (le_of_lt ((List.pairwise_cons.mp hpw).1 x hxl'))
      · obtain ⟨h1, h2⟩ := ih hpw htail
        refine ⟨h1, ?_⟩
        intro x hx
        rcases List.mem_cons.mp hx with hxa | hxl
        · subst hxa
          have hp1 : p.1 ∈ b :: l' := (adjacentPairs_mem htail).1
          exact Or.inl (le_of_lt (ha p.1 hp1))
        · exact h2 x hxl

theorem sorted_head_eq {l : List Int} (h : l.Pairwise (· < ·)) {m : Int}
    (hm : m ∈ l) (hmin : ∀ x ∈ l, m ≤ x) : l.head? = some m := by
  cases l with
  | nil => simp at hm
  | cons a l' =>
    rcases List.mem_cons.mp hm with hma | hml
    · rw [hma]
      rfl
    · have h1 : a < m := (List.pairwise_cons.mp h).1 m hml
      have h2 : m ≤ a := hmin a (List.mem_cons_self _ _)
      omega

theorem sorted_last_eq {l : List Int} (h : l.Pairwise (· < ·)) {m : Int}
    (hm : m ∈ l) (hmax : ∀ x ∈ l, x ≤ m) : l.getLast? = some m := by
  induction l with
  | nil => simp at hm
  | cons a l' ih =>
    cases l' with
    | nil =>
      simp at hm
      rw [hm]
      rfl
    | cons b l'' =>
      rw [List.getLast?_cons_cons]
      have hpw := (List.pairwise_cons.mp h).2
      have hml : m ∈ b :: l'' := by
        rcases List.mem_cons.mp hm with hma | hml
        · exfalso
          have : a < b := (List.pairwise_cons.mp h).1 b (List.mem_cons_self _ _)
          have : b ≤ m := hmax b (List.mem_cons_of_mem _ (List.mem_cons_self _ _))
          omega
        · exact hml
      exact ih hpw hml (fun x hx => hmax x (List.mem_cons_of_mem _ hx))

theorem breakpointsOf_pairwise (sls : List (TimeseriesItem String))
    (uos : List (TimeseriesItem Rat)) (pdss : List (TimeseriesItem String))
    (cfs : List (TimeseriesItem CalibrationFactors)) :
    (breakpointsOf sls uos pdss cfs).Pairwise (· < ·) := by
  have hs : (breakpointsOf sls uos pdss cfs).Sorted (· ≤ ·) :=
    List.sorted_insertionSort _ _
  have hperm := List.perm_insertionSort (· ≤ ·)
    (List.dedup (endpointsOf sls uos pdss cfs))
  have hnd : (breakpointsOf sls uos pdss cfs).Nodup :=
    hperm.nodup_iff.mpr (List.nodup_dedup _)
  exact List.Sorted.lt_of_le hs hnd

theorem breakpointsOf_mem (sls : List (TimeseriesItem String))
    (uos : List (TimeseriesItem Rat)) (pdss : List (TimeseriesItem String))
    (cfs : List (TimeseriesItem CalibrationFactors)) (x : Int) :
    x ∈ breakpointsOf sls uos pdss cfs ↔ x ∈ endpointsOf sls uos pdss cfs := by
  have hperm := List.perm_insertionSort (· ≤ ·)
    (List.dedup (endpointsOf sls uos pdss cfs))
  rw [breakpointsOf]
  rw [hperm.mem_iff]
  exact List.mem_dedup

theorem endpointsOf_mem_iff (sls : List (TimeseriesItem String))
    (uos : List (TimeseriesItem Rat)) (pdss : List (TimeseriesItem String))
    (cfs : List (TimeseriesItem CalibrationFactors)) (x : Int) :
    x ∈ endpointsOf sls uos pdss cfs ↔
      (∃ r ∈ sls, x = r.from_datetime ∨ x = r.to_datetime) ∨
        (∃ r ∈ uos, x = r.from_datetime ∨ x = r.to_datetime) ∨
        (∃ r ∈ pdss, x = r.from_datetime ∨ x = r.to_datetime) ∨
        (∃ r ∈ cfs, x = r.from_datetime ∨ x = r.to_datetime) := by
  simp only [endpointsOf, List.mem_append, List.mem_map]
  constructor
  · rintro (((((((⟨r, hr, he⟩ | ⟨r, hr, he⟩) | ⟨r, hr, he⟩) | ⟨r, hr, he⟩) |
      ⟨r, hr, he⟩) | ⟨r, hr, he⟩) | ⟨r, hr, he⟩) | ⟨r, hr, he⟩) <;>
      subst he
    · exact Or.inl ⟨r, hr, Or.inl rfl⟩
    · exact Or.inl ⟨r, hr, Or.inr rfl⟩
    · exact Or.inr (Or.inl ⟨r, hr, Or.inl rfl⟩)
    · exact Or.inr (Or.inl ⟨r, hr, Or.inr rfl⟩)
    · exact Or.inr (Or.inr (Or.inl ⟨r, hr, Or.inl rfl⟩))
    · exact Or.inr (Or.inr (Or.inl ⟨r, hr, Or.inr rfl⟩))
    · exact Or.inr (Or.inr (Or.inr ⟨r, hr, Or.inl rfl⟩))
    · exact Or.inr (Or.inr (Or.inr ⟨r, hr, Or.inr rfl⟩))
  · rintro (⟨r, hr, he | he⟩ | ⟨r, hr, he | he⟩ | ⟨r, hr, he | he⟩ |
      ⟨r, hr, he | he⟩) <;> subst he
    · exact Or.inl (Or.inl (Or.inl (Or.inl (Or.inl (Or.inl (Or.inl
        ⟨r, hr, rfl⟩))))))
    · exact Or.inl (Or.inl (Or.inl (Or.inl (Or.inl (Or.inl (Or.inr
        ⟨r, hr, rfl⟩))))))
    · exact Or.inl (Or.inl (Or.inl (Or.inl (Or.inl (Or.inr ⟨r, hr, rfl⟩)))))
    · exact Or.inl (Or.inl (Or.inl (Or.inl (Or.inr ⟨r, hr, rfl⟩))))
    · exact Or.inl (Or.inl (Or.inl (Or.inr ⟨r, hr, rfl⟩)))
    · exact Or.inl (Or.inl (Or.inr ⟨r, hr, rfl⟩))
    · exact Or.inl (Or.inr ⟨r, hr, rfl⟩)
    · exact Or.inr ⟨r, hr, rfl⟩

/-! ## Segment candidates of a sorted, non-overlapping series -/

theorem segmentCandidates_mem {V : Type} {b b' : Int}
    {S : List (TimeseriesItem V)} {r : TimeseriesItem V}
    (hr : r ∈ segmentCandidates b b' S) :
    r ∈ S ∧ r.from_datetime ≤ b ∧ b ≤ r.to_datetime ∧
      r.from_datetime ≤ b' ∧ b' ≤ r.to_datetime := by
  obtain ⟨hmem, hpred⟩ := List.mem_filter.mp hr
  simp only [Bool.and_eq_true, decide_eq_true_eq] at hpred
  exact ⟨hmem, hpred.1.1.1, hpred.1.1.2, hpred.1.2, hpred.2⟩

theorem pairwise_unique_containing {V : Type} {S : List (TimeseriesItem V)}
    (hpw : S.Pairwise (fun a b => a.to_datetime < b.from_datetime)) {x : Int}
    {a b : TimeseriesItem V} (ha : a ∈ S) (hb : b ∈ S)
    (hax : a.from_datetime ≤ x ∧ x ≤ a.to_datetime)
    (hbx : b.from_datetime ≤ x ∧ x ≤ b.to_datetime) : a = b := by
  induction S with
  | nil => simp at ha
  | cons s rest ih =>
    obtain ⟨hhead, htail⟩ := List.pairwise_cons.mp hpw
    rcases List.mem_cons.mp ha with has | har
    · rcases List.mem_cons.mp hb with hbs | hbr
      · rw [has, hbs]
      · subst has
        have := hhead b hbr
        omega
    · rcases List.mem_cons.mp hb with hbs | hbr
      · subst hbs
        have := hhead a har
        omega
      · exact ih htail har hbr

theorem segmentCandidates_length_le_one {V : Type} {b b' : Int}
    {S : List (TimeseriesItem V)}
    (hpw : S.Pairwise (fun a b => a.to_datetime < b.from_datetime)) :
    (segmentCandidates b b' S).length ≤ 1 := by
  induction S with
  | nil => simp [segmentCandidates]
  | cons s rest ih =>
    obtain ⟨hhead, htail⟩ := List.pairwise_cons.mp hpw
    rw [segmentCandidates, List.filter_cons]
    split
    · rename_i hpred
      simp only [Bool.and_eq_true, decide_eq_true_eq] at hpred
      have hnil : rest.filter
          (fun p =>
            decide (p.from_datetime ≤ b) && decide (b ≤ p.to_datetime) &&
              decide (p.from_datetime ≤ b') && decide (b' ≤ p.to_datetime)) = [] := by
        rw [List.filter_eq_nil]
        intro q hq
        simp only [Bool.and_eq_true, decide_eq_true_eq, not_and]
        intro h1 h2
        have := hhead q hq
        omega
      rw [show rest.filter _ = ([] : List (TimeseriesItem V)) from hnil]
      simp
    · exact ih htail

theorem nodup_of_pairwise_wf {V : Type} {S : List (TimeseriesItem V)}
    (hpw : S.Pairwise (fun a b => a.to_datetime < b.from_datetime))
    (hwf : ∀ r ∈ S, r.from_datetime ≤ r.to_datetime) : S.Nodup := by
  induction S with
  | nil => simp
  | cons s rest ih =>
    obtain ⟨hhead, htail⟩ := List.pairwise_cons.mp hpw
    refine List.nodup_cons.mpr ⟨?_, ih htail
      (fun r hr => hwf r (List.mem_cons_of_mem _ hr))⟩
    intro hmem
    have h1 := hhead s hmem
    have h2 := hwf s (List.mem_cons_self _ _)
    omega

theorem filter_eq_singleton_of {α : Type} {l : List α} {p : α → Bool} {r : α}
    (hnd : l.Nodup) (hr : r ∈ l) (hp : p r = true)
    (huniq : ∀ q ∈ l, p q = true → q = r) : l.filter p = [r] := by
  induction l with
  | nil => simp at hr
  | cons a rest ih =>
    obtain ⟨hna, hndr⟩ := List.nodup_cons.mp hnd
    rcases List.mem_cons.mp hr with hra | hrr
    · subst hra
      rw [List.filter_cons, if_pos hp]
      have : rest.filter p = [] := by
        rw [List.filter_eq_nil]
        intro q hq hpq
        exact hna (huniq q (List.mem_cons_of_mem _ hq) hpq ▸ hq)
      rw [this]
    · have hpa : p a = false := by
        by_contra hcon
        have : a = r := huniq a (List.mem_cons_self _ _)
          (Bool.eq_true_of_ne_false hcon)
        subst this
        exact hna hrr
      rw [List.filter_cons, if_neg (by simp [hpa])]
      exact ih hndr hrr (fun q hq => huniq q (List.mem_cons_of_mem _ hq))

theorem segmentCandidates_eq_nil_of_end {V : Type} {f t b b' : Int}
    {S : List (TimeseriesItem V)} (hcov : contiguousCover f t S = true)
    (hbb' : b < b') {r0 : TimeseriesItem V} (hr0 : r0 ∈ S)
    (hr0td : r0.to_datetime = b) : segmentCandidates b b' S = [] := by
  have hpw := contiguousCover_pairwise hcov
  rw [segmentCandidates, List.filter_eq_nil]
  intro q hq
  simp only [Bool.and_eq_true, decide_eq_true_eq, not_and]
  intro h1 h2
  have hr0wf := contiguousCover_mem hcov r0 hr0
  have : q = r0 := pairwise_unique_containing hpw hq hr0 ⟨h1.1.1, h1.1.2⟩
    ⟨by omega, by omega⟩
  subst this
  omega

theorem segmentCandidates_eq_singleton {V : Type} {f t b b' : Int}
    {S : List (TimeseriesItem V)} (hcov : contiguousCover f t S = true)
    (hb : f ≤ b) (hbb' : b < b') (hb't : b' ≤ t)
    (hnotend : ∀ r ∈ S, r.to_datetime ≠ b)
    (hsucc : ∀ r ∈ S, r.to_datetime ≤ b ∨ b' ≤ r.to_datetime) :
    ∃ r ∈ S, segmentCandidates b b' S = [r] ∧ r.from_datetime ≤ b ∧
      b' ≤ r.to_datetime := by
  have hpw := contiguousCover_pairwise hcov
  obtain ⟨r, hrmem, hrf, hrt⟩ := contiguousCover_covers hcov hb (by omega)
  have hrtb : b' ≤ r.to_datetime := by
    have h1 := hnotend r hrmem
    have h2 := hsucc r hrmem
    omega
  have hpred :
      (decide (r.from_datetime ≤ b) && decide (b ≤ r.to_datetime) &&
        decide (r.from_datetime ≤ b') && decide (b' ≤ r.to_datetime)) = true := by
    simp only [Bool.and_eq_true, decide_eq_true_eq]
    refine ⟨⟨⟨hrf, hrt⟩, by omega⟩, hrtb⟩
  have hnd := nodup_of_pairwise_wf hpw
    (fun q hq => (contiguousCover_mem hcov q hq).2.1)
  refine ⟨r, hrmem, ?_, hrf, hrtb⟩
  refine filter_eq_singleton_of hnd hrmem hpred ?_
  intro q hq hpq
  simp only [Bool.and_eq_true, decide_eq_true_eq] at hpq
  exact pairwise_unique_containing hpw hq hrmem ⟨hpq.1.1.1, hpq.1.1.2⟩
    ⟨hrf, hrt⟩

/-! ## Reduction and inversion lemmas for the `Except`-valued engine steps -/

theorem chain'_adjacentPairs {α : Type} {R : α → α → Prop} {l : List α}
    (h : l.Chain' R) : ∀ p ∈ adjacentPairs l, R p.1 p.2 := by
  induction l with
  | nil => simp
  | cons a l ih =>
    cases l with
    | nil => simp
    | cons b l' =>
      intro p hp
      rw [adjacentPairs_cons₂] at hp
      rcases List.mem_cons.mp hp with hab | htail
      · subst hab
        exact (List.chain'_cons.mp h).1
      · exact ih (List.chain'_cons.mp h).2 p htail

theorem fill_checked_ok_of_cover {V : Type} {f t : Int}
    {ds : List (TimeseriesItem V)} {v : V}
    (h : contiguousCover f t (fill_ts_data_gaps_with_default f t ds v) = true) :
    fill_checked f t ds v = .ok (fill_ts_data_gaps_with_default f t ds v) := by
  rw [fill_checked]
  have hne := contiguousCover_ne_nil h
  have hch := contiguousCover_chain' h
  have hcond : (!(fill_ts_data_gaps_with_default f t ds v).isEmpty &&
      (adjacentPairs (fill_ts_data_gaps_with_default f t ds v)).all
        (fun p => p.1.to_datetime + 1 == p.2.from_datetime)) = true := by
    rw [Bool.and_eq_true]
    refine ⟨?_, ?_⟩
    · simp [List.isEmpty_iff, hne]
    · rw [List.all_eq_true]
      intro p hp
      have := chain'_adjacentPairs hch p hp
      simpa using this
  rw [if_pos hcond]

theorem fill_checked_ok_inv {V : Type} {f t : Int}
    {ds out : List (TimeseriesItem V)} {v : V}
    (h : fill_checked f t ds v = .ok out) :
    out = fill_ts_data_gaps_with_default f t ds v := by
  rw [fill_checked] at h
  split at h
  · injection h with h2
    exact h2.symm
  · exact absurd h (by simp)

theorem get_segment_property_ok_some {V : Type} {b b' : Int}
    {S : List (TimeseriesItem V)} {r : TimeseriesItem V}
    (h : get_segment_property b b' S = .ok (some r)) :
    r ∈ S ∧ r.from_datetime ≤ b ∧ b ≤ r.to_datetime ∧
      r.from_datetime ≤ b' ∧ b' ≤ r.to_datetime := by
  rw [get_segment_property] at h
  split at h
  · simp at h
  · rename_i p heq
    simp at h
    subst h
    exact segmentCandidates_mem (heq ▸ List.mem_cons_self _ _)
  · simp at h

theorem gsp_ne_internal_of_le_one {V : Type} {b b' : Int}
    {S : List (TimeseriesItem V)}
    (h : (segmentCandidates b b' S).length ≤ 1) :
    get_segment_property b b' S ≠ .error .internalAssertion := by
  rw [get_segment_property]
  split
  · simp
  · simp
  · rename_i p q rest heq
    rw [heq] at h
    simp at h

theorem resolve_segment_ok_some_inv {locs : List LocationMetadata}
    {sid : String} {serial : Int} {sls : List (TimeseriesItem String)}
    {uos : List (TimeseriesItem Rat)} {pdss : List (TimeseriesItem String)}
    {cfs : List (TimeseriesItem CalibrationFactors)} {b b' : Int}
    {c : SensorDataContext}
    (h : resolve_segment locs sid serial sls uos pdss cfs b b' =
      .ok (some c)) :
    c.sensor_id = sid ∧ c.serial_number = serial ∧ c.from_datetime = b ∧
      c.to_datetime = b' ∧ c.multiple_ctx_on_this_date = false ∧
      (∃ u ∈ uos, u.from_datetime ≤ b ∧ b' ≤ u.to_datetime ∧
        c.utc_offset = u.value) ∧
      (∃ q ∈ pdss, q.from_datetime ≤ b ∧ b' ≤ q.to_datetime ∧
        c.pressure_data_source = q.value) ∧
      (∃ k ∈ cfs, k.from_datetime ≤ b ∧ b' ≤ k.to_datetime ∧
        c.calibration_factors = k.value) := by
  rw [resolve_segment] at h
  split at h
  · simp at h
  · simp at h
  · rename_i sl hsl
    split at h
    · simp at h
    · simp at h
    · rename_i uo huo
      split at h
      · simp at h
      · simp at h
      · rename_i pds hpds
        split at h
        · simp at h
        · simp at h
        · rename_i cf hcf
          split at h
          · simp at h
          · rename_i location hloc
            simp only [Except.ok.injEq, Option.some.injEq] at h
            subst h
            have hu := get_segment_property_ok_some huo
            have hq := get_segment_property_ok_some hpds
            have hk := get_segment_property_ok_some hcf
            refine ⟨rfl, rfl, rfl, rfl, rfl, ?_, ?_, ?_⟩
            · exact ⟨uo, hu.1, hu.2.1, hu.2.2.2.2, rfl⟩
            · exact ⟨pds, hq.1, hq.2.1, hq.2.2.2.2, rfl⟩
            · exact ⟨cf, hk.1, hk.2.1, hk.2.2.2.2, rfl⟩

theorem resolve_segment_nil_locations {locs : List LocationMetadata}
    {sid : String} {serial : Int} {uos : List (TimeseriesItem Rat)}
    {pdss : List (TimeseriesItem String)}
    {cfs : List (TimeseriesItem CalibrationFactors)} (b b' : Int) :
    resolve_segment locs sid serial [] uos pdss cfs b b' = .ok none := rfl

theorem build_contexts_nil_locations {locs : List LocationMetadata}
    {sid : String} {serial : Int} {uos : List (TimeseriesItem Rat)}
    {pdss : List (TimeseriesItem String)}
    {cfs : List (TimeseriesItem CalibrationFactors)}
    (segs : List (Int × Int)) :
    build_contexts locs sid serial [] uos pdss cfs segs = .ok [] := by
  induction segs with
  | nil => rfl
  | cons p ps ih =>
    rw [build_contexts, resolve_segment_nil_locations]
    exact ih

theorem build_contexts_ok_inv {locs : List LocationMetadata} {sid : String}
    {serial : Int} {sls : List (TimeseriesItem String)}
    {uos : List (TimeseriesItem Rat)} {pdss : List (TimeseriesItem String)}
    {cfs : List (TimeseriesItem CalibrationFactors)}
    {segs : List (Int × Int)} {cs : List SensorDataContext}
    (h : build_contexts locs sid serial sls uos pdss cfs segs = .ok cs) :
    ∀ c ∈ cs, ∃ p ∈ segs,
      resolve_segment locs sid serial sls uos pdss cfs p.1 p.2 =
        .ok (some c) := by
  induction segs generalizing cs with
  | nil =>
    rw [build_contexts] at h
    injection h with h
    subst h
    simp
  | cons p ps ih =>
    rw [build_contexts] at h
    split at h
    · simp at h
    · intro c hc
      obtain ⟨q, hq, hres⟩ := ih h c hc
      exact ⟨q, List.mem_cons_of_mem _ hq, hres⟩
    · rename_i ctx hctx
      split at h
      · simp at h
      · rename_i rest hrest
        injection h with h
        subst h
        intro c hc
        rcases List.mem_cons.mp hc with hcc | hcr
        · exact ⟨p, List.mem_cons_self _ _, hcc ▸ hctx⟩
        · obtain ⟨q, hq, hres⟩ := ih hrest c hcr
          exact ⟨q, List.mem_cons_of_mem _ hq, hres⟩

theorem get_ok_inv {iface : EM27MetadataInterface} {sid : String} {f t : Int}
    {ctxs : List SensorDataContext}
    (h : iface.get sid f t = .ok ctxs) :
    ∃ s, iface.sensors.find? (fun x => x.sensor_id == sid) = some s ∧
      f ≤ t ∧
      ∃ cs,
        build_contexts iface.locations s.sensor_id s.serial_number
          (parse_ts_data f t s.locations)
          (fill_ts_data_gaps_with_default f t
            (parse_ts_data f t s.different_utc_offsets) (0 : Rat))
          (fill_ts_data_gaps_with_default f t
            (parse_ts_data f t s.different_pressure_data_sources) s.sensor_id)
          (fill_ts_data_gaps_with_default f t
            (parse_ts_data f t s.different_calibration_factors)
            ({} : CalibrationFactors))
          (adjacentPairs
            (breakpointsOf (parse_ts_data f t s.locations)
              (fill_ts_data_gaps_with_default f t
                (parse_ts_data f t s.different_utc_offsets) (0 : Rat))
              (fill_ts_data_gaps_with_default f t
                (parse_ts_data f t s.different_pressure_data_sources)
                s.sensor_id)
              (fill_ts_data_gaps_with_default f t
                (parse_ts_data f t s.different_calibration_factors)
                ({} : CalibrationFactors)))) = .ok cs ∧
        ctxs =
          (if cs.length > 1 then
            cs.map (fun c => { c with multiple_ctx_on_this_date := true })
          else cs) := by
  rw [EM27MetadataInterface.get] at h
  split at h
  · simp at h
  · rename_i s hfind
    split at h
    · simp at h
    · rename_i hrange
      refine ⟨s, hfind, by omega, ?_⟩
      split at h
      · simp at h
      · rename_i uos huos
        split at h
        · simp at h
        · rename_i pdss hpdss
          split at h
          · simp at h
          · rename_i cfs hcfs
            split at h
            · simp at h
            · rename_i cs hcs
              injection h with h
              have huos' := fill_checked_ok_inv huos
              have hpdss' := fill_checked_ok_inv hpdss
              have hcfs' := fill_checked_ok_inv hcfs
              subst huos' hpdss' hcfs'
              exact ⟨cs, hcs, h.symm⟩

/-! ## Concrete fixtures used by the witnesses and counterexamples -/

deriving instance DecidableEq for Except

def witLoc : LocationMetadata := { location_id := "l1" }

/-- A sensor whose location series covers `[0, 119]` and whose auxiliary
series are all empty. -/
def witSensor : SensorMetadata :=
  { sensor_id := "s1", serial_number := 51,
    locations := [⟨0, 119, "l1"⟩],
    different_utc_offsets := [],
    different_pressure_data_sources := [],
    different_calibration_factors := [] }

def witCatalog : EM27MetadataInterface :=
  { locations := [witLoc], sensors := [witSensor], campaigns := [] }

/-- A sensor with a single location record `[0, 59]`. -/
def witSensorB : SensorMetadata :=
  { witSensor with locations := [⟨0, 59, "l1"⟩] }

def witCatalogB : EM27MetadataInterface :=
  { witCatalog with sensors := [witSensorB] }

def witContext : SensorDataContext :=
  { sensor_id := "s1", serial_number := 51, from_datetime := 0,
    to_datetime := 119, location := witLoc, utc_offset := 0,
    pressure_data_source := "s1", calibration_factors := {},
    multiple_ctx_on_this_date := false }

/-! ## Claims C4, C5, C6, C8 -/

/-- C4: for any property series that is sorted and non-overlapping (as the
construction-time checks guarantee), and any window bounds `f ≤ t`, at most
one record of the cropped series, and at most one record of the
cropped-and-gap-filled series, satisfies the segment membership test
`record.from <= b AND b' <= record.to` for any breakpoint pair `(b, b')`;
hence the `assert len(candidates) <= 1` inside `_get_segment_property` never
raises for either kind of series. -/
theorem c4_candidates_at_most_one {V : Type} (S : List (TimeseriesItem V))
    (v : V) (f t b b' : Int)
    (hpw : S.Pairwise (fun a c => a.to_datetime < c.from_datetime))
    (hwf : ∀ r ∈ S, r.from_datetime ≤ r.to_datetime) (hft : f ≤ t) :
    ((segmentCandidates b b' (parse_ts_data f t S)).length ≤ 1 ∧
      get_segment_property b b' (parse_ts_data f t S) ≠
        .error .internalAssertion) ∧
    ((segmentCandidates b b'
        (fill_ts_data_gaps_with_default f t (parse_ts_data f t S) v)).length ≤ 1 ∧
      get_segment_property b b'
          (fill_ts_data_gaps_with_default f t (parse_ts_data f t S) v) ≠
        .error .internalAssertion) := by
  have hpw1 := parse_ts_data_pairwise f t hpw
  have h1 : (segmentCandidates b b' (parse_ts_data f t S)).length ≤ 1 :=
    segmentCandidates_length_le_one hpw1
  have hcov : contiguousCover f t
      (fill_ts_data_gaps_with_default f t (parse_ts_data f t S) v) = true :=
    fill_ts_data_gaps_cover hft hpw1 (parse_ts_data_bounds hft hwf)
  have h2 : (segmentCandidates b b'
      (fill_ts_data_gaps_with_default f t (parse_ts_data f t S) v)).length ≤ 1 :=
    segmentCandidates_length_le_one (contiguousCover_pairwise hcov)
  exact ⟨⟨h1, gsp_ne_internal_of_le_one h1⟩,
    ⟨h2, gsp_ne_internal_of_le_one h2⟩⟩

theorem c4_witness :
    (([⟨0, 59, (0 : Int)⟩, ⟨120, 179, 0⟩] :
        List (TimeseriesItem Int)).Pairwise
      (fun a c => a.to_datetime < c.from_datetime) ∧
      (∀ r ∈ ([⟨0, 59, (0 : Int)⟩, ⟨120, 179, 0⟩] :
        List (TimeseriesItem Int)), r.from_datetime ≤ r.to_datetime) ∧
      (0 : Int) ≤ 299) ∧
    ((segmentCandidates 0 59
        (parse_ts_data 0 299
          ([⟨0, 59, (0 : Int)⟩, ⟨120, 179, 0⟩] :
            List (TimeseriesItem Int)))).length ≤ 1 ∧
      get_segment_property 0 59
          (parse_ts_data 0 299
            ([⟨0, 59, (0 : Int)⟩, ⟨120, 179, 0⟩] :
              List (TimeseriesItem Int))) ≠ .error .internalAssertion) ∧
    ((segmentCandidates 0 59
        (fill_ts_data_gaps_with_default 0 299
          (parse_ts_data 0 299
            ([⟨0, 59, (0 : Int)⟩, ⟨120, 179, 0⟩] :
              List (TimeseriesItem Int))) 0)).length ≤ 1 ∧
      get_segment_property 0 59
          (fill_ts_data_gaps_with_default 0 299
            (parse_ts_data 0 299
              ([⟨0, 59, (0 : Int)⟩, ⟨120, 179, 0⟩] :
                List (TimeseriesItem Int))) 0) ≠ .error .internalAssertion) := by
  refine ⟨⟨by decide, by decide, by decide⟩, ?_⟩
  exact c4_candidates_at_most_one _ 0 0 299 0 59 (by decide) (by decide)
    (by decide)

/-- C5: `get` with an unknown `sensor_id` fails with the unknown-sensor
`ValueError` carrying that id, and `get` with a known sensor but
`from_datetime > to_datetime` fails with the inverted-range `ValueError`
carrying both instants; in both cases no contexts are returned (the result is
the error, and `get` is a pure function of the immutable catalog). -/
theorem c5_query_errors (iface : EM27MetadataInterface) (sid : String)
    (f t : Int) :
    (sid ∉ iface.sensors.map (·.sensor_id) →
      iface.get sid f t = .error (.unknownSensor sid)) ∧
    ((∃ s ∈ iface.sensors, s.sensor_id = sid) → f > t →
      iface.get sid f t = .error (.invalidRange f t)) := by
  constructor
  · intro hmem
    have hfind : iface.sensors.find? (fun x => x.sensor_id == sid) = none := by
      rw [List.find?_eq_none]
      intro x hx
      simp only [beq_iff_eq]
      intro hcon
      exact hmem (List.mem_map.mpr ⟨x, hx, hcon⟩)
    rw [EM27MetadataInterface.get, hfind]
  · intro hex hrange
    have hsome : (iface.sensors.find? (fun x => x.sensor_id == sid)).isSome := by
      rw [List.find?_isSome]
      obtain ⟨s, hs, hid⟩ := hex
      exact ⟨s, hs, by simp [hid]⟩
    obtain ⟨s, hfind⟩ := Option.isSome_iff_exists.mp hsome
    rw [EM27MetadataInterface.get, hfind]
    simp only [if_pos hrange]

theorem c5_witness :
    ("zz" ∉ witCatalog.sensors.map (·.sensor_id) ∧
      witCatalog.get "zz" 0 119 = .error (.unknownSensor "zz")) ∧
    ((∃ s ∈ witCatalog.sensors, s.sensor_id = "s1") ∧ (5 : Int) > 3 ∧
      witCatalog.get "s1" 5 3 = .error (.invalidRange 5 3)) := by
  refine ⟨⟨by decide, ?_⟩, ⟨by decide, by decide, ?_⟩⟩
  · exact (c5_query_errors witCatalog "zz" 0 119).1 (by decide)
  · exact (c5_query_errors witCatalog "s1" 5 3).2 (by decide) (by decide)

/-- C6: for a known sensor and a window `f ≤ t`, if no location record of the
sensor overlaps the closed window `[f, t]` (and the auxiliary series satisfy
the construction-time soundness invariants), `get` returns the empty list
rather than an error. -/
theorem c6_no_overlap_returns_empty (iface : EM27MetadataInterface)
    (sid : String) (f t : Int) (s : SensorMetadata)
    (hfind : iface.sensors.find? (fun x => x.sensor_id == sid) = some s)
    (hft : f ≤ t)
    (hnoloc : ∀ d ∈ s.locations, d.to_datetime < f ∨ t < d.from_datetime)
    (hpwU : s.different_utc_offsets.Pairwise
      (fun a c => a.to_datetime < c.from_datetime))
    (hwfU : ∀ r ∈ s.different_utc_offsets,
      r.from_datetime ≤ r.to_datetime)
    (hpwP : s.different_pressure_data_sources.Pairwise
      (fun a c => a.to_datetime < c.from_datetime))
    (hwfP : ∀ r ∈ s.different_pressure_data_sources,
      r.from_datetime ≤ r.to_datetime)
    (hpwC : s.different_calibration_factors.Pairwise
      (fun a c => a.to_datetime < c.from_datetime))
    (hwfC : ∀ r ∈ s.different_calibration_factors,
      r.from_datetime ≤ r.to_datetime) :
    iface.get sid f t = .ok [] := by
  have hsls : parse_ts_data f t s.locations = [] := by
    rw [parse_ts_data_eq_filter_map]
    have : s.locations.filter
        (fun d => decide (f < d.to_datetime) && decide (d.from_datetime < t)) = [] := by
      rw [List.filter_eq_nil]
      intro d hd
      have := hnoloc d hd
      simp only [Bool.and_eq_true, decide_eq_true_eq, not_and]
      omega
    rw [this]
    rfl
  have hcovU := fill_ts_data_gaps_cover (v := (0 : Rat)) hft
    (parse_ts_data_pairwise f t hpwU) (parse_ts_data_bounds hft hwfU)
  have hcovP := fill_ts_data_gaps_cover (v := s.sensor_id) hft
    (parse_ts_data_pairwise f t hpwP) (parse_ts_data_bounds hft hwfP)
  have hcovC := fill_ts_data_gaps_cover (v := ({} : CalibrationFactors)) hft
    (parse_ts_data_pairwise f t hpwC) (parse_ts_data_bounds hft hwfC)
  rw [EM27MetadataInterface.get, hfind]
  simp only [if_neg (show ¬ f > t by omega), fill_checked_ok_of_cover hcovU,
    fill_checked_ok_of_cover hcovP, fill_checked_ok_of_cover hcovC, hsls,
    build_contexts_nil_locations]
  simp

theorem c6_witness :
    (witCatalogB.sensors.find? (fun x => x.sensor_id == "s1") =
        some witSensorB ∧
      (200 : Int) ≤ 299 ∧
      (∀ d ∈ witSensorB.locations,
        d.to_datetime < 200 ∨ (299 : Int) < d.from_datetime)) ∧
    witCatalogB.get "s1" 200 299 = .ok [] := by
  refine ⟨⟨by decide, by decide, by decide⟩, ?_⟩
  exact c6_no_overlap_returns_empty witCatalogB "s1" 200 299 witSensorB
    (by decide) (by decide) (by decide) (by decide) (by decide) (by decide)
    (by decide) (by decide) (by decide)

/-- C8: after any successful `get`, the `multiple_ctx_on_this_date` flag of
every returned context equals the predicate "more than one context was
returned": the flag is recomputed over the whole result set, so either all
returned contexts carry `true` or the single returned context carries
`false`. -/
theorem c8_multiple_ctx_flag {iface : EM27MetadataInterface} {sid : String}
    {f t : Int} {ctxs : List SensorDataContext}
    (h : iface.get sid f t = .ok ctxs) :
    ∀ c ∈ ctxs, c.multiple_ctx_on_this_date = decide (1 < ctxs.length) := by
  obtain ⟨s, hfind, hft, cs, hbuild, hctxs⟩ := get_ok_inv h
  have hflags : ∀ c ∈ cs, c.multiple_ctx_on_this_date = false := by
    intro c hc
    obtain ⟨p, hp, hres⟩ := build_contexts_ok_inv hbuild c hc
    exact (resolve_segment_ok_some_inv hres).2.2.2.2.1
  subst hctxs
  by_cases hlen : cs.length > 1
  · rw [if_pos hlen]
    intro c hc
    obtain ⟨c0, hc0, hc0eq⟩ := List.mem_map.mp hc
    rw [← hc0eq]
    simp only [List.length_map]
    rw [decide_eq_true (by omega)]
  · rw [if_neg hlen]
    intro c hc
    rw [hflags c hc]
    rw [eq_comm, decide_eq_false_iff_not]
    omega

theorem c8_witness :
    witCatalog.get "s1" 0 119 = .ok [witContext] ∧
    (∀ c ∈ [witContext],
      c.multiple_ctx_on_this_date = decide (1 < [witContext].length)) := by
  have hget : witCatalog.get "s1" 0 119 = .ok [witContext] := by decide
  exact ⟨hget, c8_multiple_ctx_flag hget⟩

/-! ## Infix-placement lemmas for the gap-fill output (claim C2) -/

theorem isInfix_append_left {α : Type} (x : List α) {l m : List α}
    (h : l.IsInfix m) : l.IsInfix (x ++ m) := by
  obtain ⟨s, u, rfl⟩ := h
  exact ⟨x ++ s, u, by simp⟩

theorem isInfix_append_right {α : Type} (y : List α) {l m : List α}
    (h : l.IsInfix m) : l.IsInfix (m ++ y) := by
  obtain ⟨s, u, rfl⟩ := h
  exact ⟨s, u ++ y, by simp⟩

theorem fillGaps_cons_decomp {V : Type} (v : V) (d : TimeseriesItem V)
    (l : List (TimeseriesItem V)) :
    ∃ X, fillGaps v (d :: l) = d :: X := by
  cases l with
  | nil => exact ⟨[], rfl⟩
  | cons d' l' =>
    refine ⟨(if d.to_datetime < d'.from_datetime - 1 then
        [⟨d.to_datetime + 1, d'.from_datetime - 1, v⟩]
      else []) ++ fillGaps v (d' :: l'), ?_⟩
    rw [fillGaps]

theorem fillGaps_infix_pairs {V : Type} {v : V} {ds : List (TimeseriesItem V)} :
    ∀ p ∈ adjacentPairs ds,
      (p.1.to_datetime + 1 < p.2.from_datetime →
        List.IsInfix
          [p.1, ⟨p.1.to_datetime + 1, p.2.from_datetime - 1, v⟩, p.2]
          (fillGaps v ds)) ∧
      (¬ p.1.to_datetime + 1 < p.2.from_datetime →
        List.IsInfix [p.1, p.2] (fillGaps v ds)) := by
  induction ds with
  | nil => simp
  | cons d rest ih =>
    cases rest with
    | nil => simp
    | cons d' rest' =>
      intro p hp
      obtain ⟨p1, p2⟩ := p
      obtain ⟨X, hX⟩ := fillGaps_cons_decomp v d' rest'
      rcases List.mem_cons.mp (by rwa [adjacentPairs_cons₂] at hp) with hpd | htail
      · obtain ⟨hp1, hp2⟩ := Prod.mk.injEq .. ▸ hpd
        subst hp1
        subst hp2
        constructor
        · intro hgap
          simp only at hgap ⊢
          rw [fillGaps, if_pos (by omega), hX]
          exact ⟨[], X, by simp⟩
        · intro hnogap
          simp only at hnogap ⊢
          rw [fillGaps, if_neg (by omega), hX]
          exact ⟨[], X, by simp⟩
      · have htransfer :
            ∀ l : List (TimeseriesItem V), l.IsInfix (fillGaps v (d' :: rest')) →
              l.IsInfix (fillGaps v (d :: d' :: rest')) := by
          intro l hl
          rw [fillGaps]
          rw [show (d ::
            ((if d.to_datetime < d'.from_datetime - 1 then
                [⟨d.to_datetime + 1, d'.from_datetime - 1, v⟩]
              else []) ++ fillGaps v (d' :: rest'))) =
            (d :: (if d.to_datetime < d'.from_datetime - 1 then
                [⟨d.to_datetime + 1, d'.from_datetime - 1, v⟩]
              else [])) ++ fillGaps v (d' :: rest') by simp]
          exact isInfix_append_left _ hl
        obtain ⟨h1, h2⟩ := ih (p1, p2) htail
        exact ⟨fun hgap => htransfer _ (h1 hgap),
          fun hnogap => htransfer _ (h2 hnogap)⟩

theorem lastToDatetime_eq_getLast {V : Type} {d r : TimeseriesItem V}
    {l : List (TimeseriesItem V)} (h : (d :: l).getLast? = some r) :
    lastToDatetime d l = r.to_datetime := by
  induction l generalizing d with
  | nil =>
    simp at h
    rw [h]
    rfl
  | cons d' l' ih =>
    rw [List.getLast?_cons_cons] at h
    exact ih h

/-- C2 (confirmed): for a window `f ≤ t` and an input series that is sorted,
non-overlapping and already cropped to the window,
`fill_ts_data_gaps_with_default` returns a non-empty list whose first record
starts at `f` and whose last record ends at `t`, in which consecutive records
always satisfy `to_datetime + 1 = from_datetime`; a synthetic default-valued
record sits between two consecutive input records exactly when
`to_datetime + 1 < from_datetime` of the successor, and synthetic
default-valued records are prepended/appended when the series starts after
`f` or ends before `t`. -/
theorem c2_fill_gaps_postcondition {V : Type} (f t : Int) (v : V)
    (ds : List (TimeseriesItem V)) (hft : f ≤ t)
    (hpw : ds.Pairwise (fun a b => a.to_datetime < b.from_datetime))
    (hbd : ∀ r ∈ ds, f ≤ r.from_datetime ∧ r.from_datetime ≤ r.to_datetime ∧
      r.to_datetime ≤ t)
    (out : List (TimeseriesItem V))
    (hout : out = fill_ts_data_gaps_with_default f t ds v) :
    out ≠ [] ∧
    (∀ r0, out.head? = some r0 → r0.from_datetime = f) ∧
    (∀ rN, out.getLast? = some rN → rN.to_datetime = t) ∧
    out.Chain' (fun a b => a.to_datetime + 1 = b.from_datetime) ∧
    (∀ p ∈ adjacentPairs ds,
      (p.1.to_datetime + 1 < p.2.from_datetime →
        List.IsInfix
          [p.1, ⟨p.1.to_datetime + 1, p.2.from_datetime - 1, v⟩, p.2] out) ∧
      (¬ p.1.to_datetime + 1 < p.2.from_datetime →
        List.IsInfix [p.1, p.2] out)) ∧
    (∀ d0, ds.head? = some d0 → f < d0.from_datetime →
      out.head? = some ⟨f, d0.from_datetime - 1, v⟩) ∧
    (∀ dN, ds.getLast? = some dN → dN.to_datetime < t →
      out.getLast? = some ⟨dN.to_datetime + 1, t, v⟩) := by
  subst hout
  have hcov := fill_ts_data_gaps_cover (v := v) hft hpw hbd
  refine ⟨contiguousCover_ne_nil hcov, ?_, ?_, contiguousCover_chain' hcov,
    ?_, ?_, ?_⟩
  · intro r0 hr0
    cases hl : fill_ts_data_gaps_with_default f t ds v with
    | nil => rw [hl] at hr0; simp at hr0
    | cons a rest =>
      rw [hl] at hr0
      simp at hr0
      rw [hl] at hcov
      exact hr0 ▸ contiguousCover_head hcov
  · intro rN hrN
    exact contiguousCover_last hcov hrN
  · intro p hp
    cases ds with
    | nil => simp at hp
    | cons d0 rest =>
      obtain ⟨h1, h2⟩ := fillGaps_infix_pairs (v := v) p hp
      have htransfer :
          ∀ l : List (TimeseriesItem V),
            l.IsInfix (fillGaps v (d0 :: rest)) →
            l.IsInfix (fill_ts_data_gaps_with_default f t (d0 :: rest) v) := by
        intro l hl
        rw [fill_ts_data_gaps_with_default]
        exact isInfix_append_right _ (isInfix_append_left _ hl)
      exact ⟨fun hgap => htransfer _ (h1 hgap),
        fun hnogap => htransfer _ (h2 hnogap)⟩
  · intro d0 hd0 hlate
    cases ds with
    | nil => simp at hd0
    | cons a rest =>
      simp at hd0
      subst hd0
      rw [fill_ts_data_gaps_with_default, if_pos hlate]
      simp
  · intro dN hdN hearly
    cases ds with
    | nil => simp at hdN
    | cons a rest =>
      have hlast := lastToDatetime_eq_getLast hdN
      have hcond : lastToDatetime a rest < t := by omega
      rw [fill_ts_data_gaps_with_default, if_pos hcond, hlast]
      exact List.getLast?_concat _

theorem c2_witness :
    ((0 : Int) ≤ 299 ∧
      ([⟨60, 119, (7 : Int)⟩, ⟨240, 299, 8⟩] :
        List (TimeseriesItem Int)).Pairwise
          (fun a b => a.to_datetime < b.from_datetime) ∧
      (∀ r ∈ ([⟨60, 119, (7 : Int)⟩, ⟨240, 299, 8⟩] :
          List (TimeseriesItem Int)),
        (0 : Int) ≤ r.from_datetime ∧ r.from_datetime ≤ r.to_datetime ∧
          r.to_datetime ≤ 299)) ∧
    (fill_ts_data_gaps_with_default 0 299
        ([⟨60, 119, (7 : Int)⟩, ⟨240, 299, 8⟩] : List (TimeseriesItem Int))
        5 ≠ [] ∧
      (∀ r0, (fill_ts_data_gaps_with_default 0 299
          ([⟨60, 119, (7 : Int)⟩, ⟨240, 299, 8⟩] : List (TimeseriesItem Int))
          5).head? = some r0 → r0.from_datetime = 0) ∧
      (∀ rN, (fill_ts_data_gaps_with_default 0 299
          ([⟨60, 119, (7 : Int)⟩, ⟨240, 299, 8⟩] : List (TimeseriesItem Int))
          5).getLast? = some rN → rN.to_datetime = 299) ∧
      (fill_ts_data_gaps_with_default 0 299
          ([⟨60, 119, (7 : Int)⟩, ⟨240, 299, 8⟩] : List (TimeseriesItem Int))
          5).Chain' (fun a b => a.to_datetime + 1 = b.from_datetime) ∧
      (∀ p ∈ adjacentPairs
          ([⟨60, 119, (7 : Int)⟩, ⟨240, 299, 8⟩] : List (TimeseriesItem Int)),
        (p.1.to_datetime + 1 < p.2.from_datetime →
          List.IsInfix
            [p.1, ⟨p.1.to_datetime + 1, p.2.from_datetime - 1, 5⟩, p.2]
            (fill_ts_data_gaps_with_default 0 299
              ([⟨60, 119, (7 : Int)⟩, ⟨240, 299, 8⟩] :
                List (TimeseriesItem Int)) 5)) ∧
        (¬ p.1.to_datetime + 1 < p.2.from_datetime →
          List.IsInfix [p.1, p.2]
            (fill_ts_data_gaps_with_default 0 299
              ([⟨60, 119, (7 : Int)⟩, ⟨240, 299, 8⟩] :
                List (TimeseriesItem Int)) 5))) ∧
      (∀ d0, ([⟨60, 119, (7 : Int)⟩, ⟨240, 299, 8⟩] :
          List (TimeseriesItem Int)).head? = some d0 →
        (0 : Int) < d0.from_datetime →
        (fill_ts_data_gaps_with_default 0 299
            ([⟨60, 119, (7 : Int)⟩, ⟨240, 299, 8⟩] :
              List (TimeseriesItem Int)) 5).head? =
          some ⟨0, d0.from_datetime - 1, 5⟩) ∧
      (∀ dN, ([⟨60, 119, (7 : Int)⟩, ⟨240, 299, 8⟩] :
          List (TimeseriesItem Int)).getLast? = some dN →
        dN.to_datetime < 299 →
        (fill_ts_data_gaps_with_default 0 299
            ([⟨60, 119, (7 : Int)⟩, ⟨240, 299, 8⟩] :
              List (TimeseriesItem Int)) 5).getLast? =
          some ⟨dN.to_datetime + 1, 299, 5⟩)) := by
  refine ⟨⟨by decide, by decide, by decide⟩, ?_⟩
  exact c2_fill_gaps_postcondition 0 299 5 _ (by decide) (by decide)
    (by decide) _ rfl

/-! ## Claim C3: the crop boundary convention -/

/-- C3 counterexample: the record `[0, 59]` overlaps the closed window
`[59, 119]` (it neither ends strictly before the window starts nor starts
strictly after it ends), yet `parse_ts_data` discards it, because the source
drops records with `to_datetime <= from_datetime` (non-strict comparison). -/
theorem c3_counterexample :
    parse_ts_data 59 119 [(⟨0, 59, (0 : Int)⟩ : TimeseriesItem Int)] = [] ∧
    ¬ ((⟨0, 59, (0 : Int)⟩ : TimeseriesItem Int).to_datetime < 59 ∨
      (⟨0, 59, (0 : Int)⟩ : TimeseriesItem Int).from_datetime > 119) ∧
    (59 : Int) ≤ 119 := by decide

/-- C3 (amended): `parse_ts_data` keeps a record iff
`window.from < record.to AND record.from < window.to` — i.e. a record is
discarded exactly when `record.to <= window.from` or
`record.from >= window.to`, so records that merely touch a window boundary
are dropped; every kept record is clipped into `[from, to]` and the input
order is preserved (the result is the order-preserving filter-and-clamp of
the input). -/
theorem c3_crop_characterization {V : Type} (f t : Int)
    (ds : List (TimeseriesItem V)) :
    parse_ts_data f t ds =
      (ds.filter
          (fun d => decide (f < d.to_datetime) && decide (d.from_datetime < t))).map
        (fun d =>
          { d with
            from_datetime := max d.from_datetime f,
            to_datetime := min d.to_datetime t }) ∧
    (f ≤ t → (∀ d ∈ ds, d.from_datetime ≤ d.to_datetime) →
      ∀ r ∈ parse_ts_data f t ds,
        f ≤ r.from_datetime ∧ r.from_datetime ≤ r.to_datetime ∧
          r.to_datetime ≤ t) :=
  ⟨parse_ts_data_eq_filter_map f t ds,
    fun hft hwf => parse_ts_data_bounds hft hwf⟩

theorem c3_witness :
    ((0 : Int) ≤ 119 ∧
      (∀ d ∈ ([⟨60, 179, (3 : Int)⟩] : List (TimeseriesItem Int)),
        d.from_datetime ≤ d.to_datetime)) ∧
    parse_ts_data 0 119 ([⟨60, 179, (3 : Int)⟩] : List (TimeseriesItem Int)) =
      (([⟨60, 179, (3 : Int)⟩] : List (TimeseriesItem Int)).filter
          (fun d =>
            decide ((0 : Int) < d.to_datetime) &&
              decide (d.from_datetime < 119))).map
        (fun d =>
          { d with
            from_datetime := max d.from_datetime 0,
            to_datetime := min d.to_datetime 119 }) ∧
    (∀ r ∈ parse_ts_data 0 119
        ([⟨60, 179, (3 : Int)⟩] : List (TimeseriesItem Int)),
      (0 : Int) ≤ r.from_datetime ∧ r.from_datetime ≤ r.to_datetime ∧
        r.to_datetime ≤ 119) := by
  refine ⟨⟨by decide, by decide⟩, ?_, ?_⟩
  · exact (c3_crop_characterization 0 119 _).1
  · exact (c3_crop_characterization 0 119 _).2 (by decide) (by decide)

/-! ## Construction-time validation (`_test_data_integrity`,
`TimeSeriesElement.model_validator`) -/

/-- The `model_validator` of `TimeSeriesElement` (`em27_metadata/types.py`):
three sequential asserts requiring `from_datetime < to_datetime`,
`from_datetime.second == 0` and `to_datetime.second == 59` (the `second`
field of an instant is its value modulo 60 in this embedding); the messages
are those of the source. -/
def timeSeriesElement_model_validator (from_datetime to_datetime : Int) :
    Except String Unit :=
  if ¬ from_datetime < to_datetime then
    .error "from_datetime must be before to_datetime"
  else if ¬ from_datetime % 60 = 0 then
    .error "from_datetime must be at the beginning of a minute"
  else if ¬ to_datetime % 60 = 59 then
    .error "to_datetime must be at the beginning of a minute"
  else .ok ()

/-- `_DatetimeSeriesItem` of `em27_metadata/interfaces.py`: the datetime
bounds of a series element, as used by the integrity checks. -/
structure DatetimeSeriesItem where
  from_datetime : Int
  to_datetime : Int
deriving DecidableEq, Repr

/-- The assertion failures of `_test_data_integrity`, each carrying the data
interpolated into the assertion message. -/
inductive ValidationError where
  | locationIdsNotUnique
  | sensorIdsNotUnique
  | campaignIdsNotUnique
  | unknownLocationId (location_id : String)
  | unknownSensorId (sensor_id : String)
  | elementNotBefore (item : DatetimeSeriesItem)
  | seriesNotSorted (item_1 item_2 : DatetimeSeriesItem)
deriving DecidableEq, Repr

/-- The datetime bounds of a series, as `_test_data_integrity` extracts them
into `_DatetimeSeriesItem`s. -/
def seriesItems {V : Type} (l : List (TimeseriesItem V)) :
    List DatetimeSeriesItem :=
  l.map (fun r => ⟨r.from_datetime, r.to_datetime⟩)

/-- First loop of the per-series integrity check:
`assert item.from_datetime < item.to_datetime` for every element. -/
def checkSeriesElements : List DatetimeSeriesItem → Except ValidationError Unit
  | [] => .ok ()
  | i :: rest =>
    if i.from_datetime < i.to_datetime then checkSeriesElements rest
    else .error (.elementNotBefore i)

/-- Second loop of the per-series integrity check, over
`zip(timeseries[:-1], timeseries[1:])`:
`assert item_1.to_datetime < item_2.from_datetime`. -/
def checkSeriesSortedPairs :
    List (DatetimeSeriesItem × DatetimeSeriesItem) → Except ValidationError Unit
  | [] => .ok ()
  | p :: ps =>
    if p.1.to_datetime < p.2.from_datetime then checkSeriesSortedPairs ps
    else .error (.seriesNotSorted p.1 p.2)

/-- The per-series integrity check of `_test_data_integrity`: every element
has `from_datetime < to_datetime`, then consecutive elements are strictly
ordered without overlap. -/
def checkTimeseries (items : List DatetimeSeriesItem) :
    Except ValidationError Unit :=
  match checkSeriesElements items with
  | .error e => .error e
  | .ok _ => checkSeriesSortedPairs (adjacentPairs items)

/-- The four per-sensor series checks, in source order. -/
def checkSensorSeries (s : SensorMetadata) : Except ValidationError Unit :=
  match checkTimeseries (seriesItems s.locations) with
  | .error e => .error e
  | .ok _ =>
    match checkTimeseries (seriesItems s.different_utc_offsets) with
    | .error e => .error e
    | .ok _ =>
      match checkTimeseries (seriesItems s.different_pressure_data_sources) with
      | .error e => .error e
      | .ok _ =>
        checkTimeseries (seriesItems s.different_calibration_factors)

def checkAllSensorsSeries : List SensorMetadata → Except ValidationError Unit
  | [] => .ok ()
  | s :: rest =>
    match checkSensorSeries s with
    | .error e => .error e
    | .ok _ => checkAllSensorsSeries rest

/-- `len(set(ids)) == len(ids)` uniqueness check. -/
def checkUnique (ids : List String) (e : ValidationError) :
    Except ValidationError Unit :=
  if ids.Nodup then .ok () else .error e

/-- Reference-existence check of the location ids named in the sensors'
location series. -/
def checkSensorLocationRefs (location_ids : List String) :
    List SensorMetadata → Except ValidationError Unit
  | [] => .ok ()
  | s :: rest =>
    match checkLocRefList location_ids s.locations with
    | .error e => .error e
    | .ok _ => checkSensorLocationRefs location_ids rest
where
  checkLocRefList (location_ids : List String) :
      List (TimeseriesItem String) → Except ValidationError Unit
    | [] => .ok ()
    | l :: ls =>
      if l.value ∈ location_ids then checkLocRefList location_ids ls
      else .error (.unknownLocationId l.value)

/-- Reference-existence check for the ids named by the campaigns. -/
def checkIdList (ids : List String) (mk : String → ValidationError) :
    List String → Except ValidationError Unit
  | [] => .ok ()
  | i :: is' =>
    if i ∈ ids then checkIdList ids mk is' else .error (mk i)

def checkCampaignRefs (location_ids sensor_ids : List String) :
    List CampaignMetadata → Except ValidationError Unit
  | [] => .ok ()
  | c :: rest =>
    match checkIdList sensor_ids ValidationError.unknownSensorId c.sensor_ids with
    | .error e => .error e
    | .ok _ =>
      match checkIdList location_ids ValidationError.unknownLocationId
        c.location_ids with
      | .error e => .error e
      | .ok _ => checkCampaignRefs location_ids sensor_ids rest

/-- `_test_data_integrity` of `em27_metadata/interfaces.py`: the six groups
of assertions in source order. -/
def test_data_integrity (locations : List LocationMetadata)
    (sensors : List SensorMetadata) (campaigns : List CampaignMetadata) :
    Except ValidationError Unit :=
  match checkUnique (locations.map (·.location_id))
    ValidationError.locationIdsNotUnique with
  | .error e => .error e
  | .ok _ =>
    match checkUnique (sensors.map (·.sensor_id))
      ValidationError.sensorIdsNotUnique with
    | .error e => .error e
    | .ok _ =>
      match checkUnique (campaigns.map (·.campaign_id))
        ValidationError.campaignIdsNotUnique with
      | .error e => .error e
      | .ok _ =>
        match checkSensorLocationRefs (locations.map (·.location_id))
          sensors with
        | .error e => .error e
        | .ok _ =>
          match checkCampaignRefs (locations.map (·.location_id))
            (sensors.map (·.sensor_id)) campaigns with
          | .error e => .error e
          | .ok _ => checkAllSensorsSeries sensors

/-- The `EM27MetadataInterface` constructor: run `_test_data_integrity` and
only then produce the catalog object (a failing check aborts construction
and no partial catalog is ever returned). -/
def mkEM27MetadataInterface (locations : List LocationMetadata)
    (sensors : List SensorMetadata) (campaigns : List CampaignMetadata) :
    Except ValidationError EM27MetadataInterface :=
  match test_data_integrity locations sensors campaigns with
  | .error e => .error e
  | .ok _ => .ok ⟨locations, sensors, campaigns⟩

theorem checkSeriesElements_ok {items : List DatetimeSeriesItem}
    (h : checkSeriesElements items = .ok ()) :
    ∀ i ∈ items, i.from_datetime < i.to_datetime := by
  induction items with
  | nil => simp
  | cons i rest ih =>
    rw [checkSeriesElements] at h
    split at h
    · rename_i hlt
      intro j hj
      rcases List.mem_cons.mp hj with hji | hjr
      · exact hji ▸ hlt
      · exact ih h j hjr
    · simp at h

theorem checkSeriesSortedPairs_ok
    {pairs : List (DatetimeSeriesItem × DatetimeSeriesItem)}
    (h : checkSeriesSortedPairs pairs = .ok ()) :
    ∀ p ∈ pairs, p.1.to_datetime < p.2.from_datetime := by
  induction pairs with
  | nil => simp
  | cons p ps ih =>
    rw [checkSeriesSortedPairs] at h
    split at h
    · rename_i hlt
      intro q hq
      rcases List.mem_cons.mp hq with hqp | hqs
      · exact hqp ▸ hlt
      · exact ih h q hqs
    · simp at h

theorem checkTimeseries_ok {items : List DatetimeSeriesItem}
    (h : checkTimeseries items = .ok ()) :
    checkSeriesElements items = .ok () ∧
      checkSeriesSortedPairs (adjacentPairs items) = .ok () := by
  rw [checkTimeseries] at h
  split at h
  · simp at h
  · rename_i u heq
    cases u
    exact ⟨heq, h⟩

theorem checkSensorSeries_ok {s : SensorMetadata}
    (h : checkSensorSeries s = .ok ()) :
    checkTimeseries (seriesItems s.locations) = .ok () ∧
      checkTimeseries (seriesItems s.different_utc_offsets) = .ok () ∧
      checkTimeseries (seriesItems s.different_pressure_data_sources) = .ok () ∧
      checkTimeseries (seriesItems s.different_calibration_factors) = .ok () := by
  rw [checkSensorSeries] at h
  split at h
  · simp at h
  · rename_i u h1
    cases u
    split at h
    · simp at h
    · rename_i u h2
      cases u
      split at h
      · simp at h
      · rename_i u h3
        cases u
        exact ⟨h1, h2, h3, h⟩

theorem checkAllSensorsSeries_ok {sensors : List SensorMetadata}
    (h : checkAllSensorsSeries sensors = .ok ()) :
    ∀ s ∈ sensors, checkSensorSeries s = .ok () := by
  induction sensors with
  | nil => simp
  | cons s rest ih =>
    rw [checkAllSensorsSeries] at h
    split at h
    · simp at h
    · rename_i u heq
      cases u
      intro x hx
      rcases List.mem_cons.mp hx with hxs | hxr
      · exact hxs ▸ heq
      · exact ih h x hxr

theorem test_data_integrity_ok {locations : List LocationMetadata}
    {sensors : List SensorMetadata} {campaigns : List CampaignMetadata}
    (h : test_data_integrity locations sensors campaigns = .ok ()) :
    checkAllSensorsSeries sensors = .ok () := by
  rw [test_data_integrity] at h
  split at h
  · simp at h
  · split at h
    · simp at h
    · split at h
      · simp at h
      · split at h
        · simp at h
        · split at h
          · simp at h
          · exact h

theorem adjacentPairs_map {α β : Type} (g : α → β) (l : List α) :
    adjacentPairs (l.map g) =
      (adjacentPairs l).map (fun p => (g p.1, g p.2)) := by
  induction l with
  | nil => rfl
  | cons a l ih =>
    cases l with
    | nil => rfl
    | cons b l' =>
      simp only [List.map_cons] at ih ⊢
      rw [adjacentPairs_cons₂, adjacentPairs_cons₂]
      simp only [List.map_cons]
      rw [ih]

/-- The per-series violation of claim C9: some record has
`from_datetime >= to_datetime`, or some pair of consecutive records has
`from_2 <= to_1` (overlapping or unsorted). -/
def seriesViolation {V : Type} (l : List (TimeseriesItem V)) : Prop :=
  (∃ r ∈ l, r.to_datetime ≤ r.from_datetime) ∨
    (∃ p ∈ adjacentPairs l, p.2.from_datetime ≤ p.1.to_datetime)

theorem not_seriesViolation_of_check {V : Type} {l : List (TimeseriesItem V)}
    (h : checkTimeseries (seriesItems l) = .ok ()) : ¬ seriesViolation l := by
  obtain ⟨helem, hsorted⟩ := checkTimeseries_ok h
  have helem' := checkSeriesElements_ok helem
  have hsorted' := checkSeriesSortedPairs_ok hsorted
  rintro (⟨r, hr, hbad⟩ | ⟨p, hp, hbad⟩)
  · have : (⟨r.from_datetime, r.to_datetime⟩ : DatetimeSeriesItem) ∈
        seriesItems l := List.mem_map.mpr ⟨r, hr, rfl⟩
    have := helem' _ this
    simp at this
    omega
  · have hmem : ((⟨p.1.from_datetime, p.1.to_datetime⟩ : DatetimeSeriesItem),
        (⟨p.2.from_datetime, p.2.to_datetime⟩ : DatetimeSeriesItem)) ∈
        adjacentPairs (seriesItems l) := by
      rw [seriesItems, adjacentPairs_map]
      exact List.mem_map.mpr ⟨p, hp, rfl⟩
    have := hsorted' _ hmem
    simp at this
    omega

/-- C9 (confirmed): whenever some sensor of the input has, in one of its
series, a record with `from_datetime >= to_datetime` or two consecutive
records with `from_2 <= to_1`, the validating constructor
`mkEM27MetadataInterface` fails (with a `ValidationError` identifying the
offending items) and never produces a catalog object. -/
theorem c9_construction_rejects (locations : List LocationMetadata)
    (sensors : List SensorMetadata) (campaigns : List CampaignMetadata)
    (h : ∃ s ∈ sensors,
      seriesViolation s.locations ∨
        seriesViolation s.different_utc_offsets ∨
        seriesViolation s.different_pressure_data_sources ∨
        seriesViolation s.different_calibration_factors) :
    (mkEM27MetadataInterface locations sensors campaigns).toOption = none := by
  obtain ⟨s, hs, hviol⟩ := h
  cases hmk : mkEM27MetadataInterface locations sensors campaigns with
  | error e => rfl
  | ok cat =>
    exfalso
    rw [mkEM27MetadataInterface] at hmk
    split at hmk
    · simp at hmk
    · rename_i u htest
      cases u
      have hall := checkAllSensorsSeries_ok (test_data_integrity_ok htest) s hs
      obtain ⟨h1, h2, h3, h4⟩ := checkSensorSeries_ok hall
      rcases hviol with hv | hv | hv | hv
      · exact not_seriesViolation_of_check h1 hv
      · exact not_seriesViolation_of_check h2 hv
      · exact not_seriesViolation_of_check h3 hv
      · exact not_seriesViolation_of_check h4 hv

theorem c9_witness :
    (∃ s ∈ [{ witSensor with
        locations := [⟨0, 59, "l1"⟩, ⟨30, 119, "l1"⟩] }],
      seriesViolation s.locations ∨
        seriesViolation s.different_utc_offsets ∨
        seriesViolation s.different_pressure_data_sources ∨
        seriesViolation s.different_calibration_factors) ∧
    (mkEM27MetadataInterface [witLoc]
        [{ witSensor with locations := [⟨0, 59, "l1"⟩, ⟨30, 119, "l1"⟩] }]
        []).toOption = none := by
  refine ⟨?_, ?_⟩
  · refine ⟨_, List.mem_cons_self _ _, Or.inl ?_⟩
    rw [seriesViolation]
    right
    exact ⟨(⟨0, 59, "l1"⟩, ⟨30, 119, "l1"⟩), by decide, by decide⟩
  · exact c9_construction_rejects _ _ _
      ⟨_, List.mem_cons_self _ _, Or.inl (Or.inr
        ⟨(⟨0, 59, "l1"⟩, ⟨30, 119, "l1"⟩), by decide, by decide⟩)⟩

/-- C10 (confirmed): the `TimeSeriesElement` validator succeeds exactly when
`from_datetime < to_datetime`, `from_datetime` falls on second 0 of its
minute and `to_datetime` falls on second 59 of its minute; otherwise a
validation error is raised, so every series record and every campaign
carried by the engine is minute-aligned. -/
theorem c10_time_series_element_validator (from_datetime to_datetime : Int) :
    timeSeriesElement_model_validator from_datetime to_datetime = .ok () ↔
      (from_datetime < to_datetime ∧ from_datetime % 60 = 0 ∧
        to_datetime % 60 = 59) := by
  rw [timeSeriesElement_model_validator]
  split_ifs with h1 h2 h3 <;> simp_all

/-- C7 (confirmed): every returned context whose interval is not covered by a
record of an auxiliary property series carries that property's constant
default: `utc_offset = 0` (modelled from the spec: the `utc_offset = 0` field
default of `SensorTypes.DifferentUTCOffset` is not part of the provided
sources), `pressure_data_source` equal to the queried sensor's own id, and
the unity `CalibrationFactors` (pressure factor 1, gas factors `[1]`, no
scheme, no note).  The defaults are fixed constants independent of
neighbouring records. -/
theorem c7_default_fallback {iface : EM27MetadataInterface} {sid : String}
    {f t : Int} {ctxs : List SensorDataContext} {s : SensorMetadata}
    (h : iface.get sid f t = .ok ctxs)
    (hfind : iface.sensors.find? (fun x => x.sensor_id == sid) = some s) :
    ∀ c ∈ ctxs,
      ((¬ ∃ d ∈ s.different_utc_offsets,
          d.from_datetime ≤ c.from_datetime ∧
            c.to_datetime ≤ d.to_datetime) → c.utc_offset = 0) ∧
      ((¬ ∃ d ∈ s.different_pressure_data_sources,
          d.from_datetime ≤ c.from_datetime ∧
            c.to_datetime ≤ d.to_datetime) →
        c.pressure_data_source = s.sensor_id) ∧
      ((¬ ∃ d ∈ s.different_calibration_factors,
          d.from_datetime ≤ c.from_datetime ∧
            c.to_datetime ≤ d.to_datetime) →
        c.calibration_factors =
          { pressure := 1,
            xco2 := { factors := [1], scheme := none, note := none },
            xch4 := { factors := [1], scheme := none, note := none },
            xco := { factors := [1], scheme := none, note := none } }) := by
  obtain ⟨s', hfind', hft, cs, hbuild, hctxs⟩ := get_ok_inv h
  rw [hfind] at hfind'
  injection hfind' with hs'
  subst hs'
  intro c hc
  have hc0 : ∃ c0 ∈ cs, c.from_datetime = c0.from_datetime ∧
      c.to_datetime = c0.to_datetime ∧ c.utc_offset = c0.utc_offset ∧
      c.pressure_data_source = c0.pressure_data_source ∧
      c.calibration_factors = c0.calibration_factors := by
    subst hctxs
    by_cases hlen : cs.length > 1
    · rw [if_pos hlen] at hc
      obtain ⟨c0, hc0mem, hc0eq⟩ := List.mem_map.mp hc
      exact ⟨c0, hc0mem, by rw [← hc0eq], by rw [← hc0eq], by rw [← hc0eq],
        by rw [← hc0eq], by rw [← hc0eq]⟩
    · rw [if_neg hlen] at hc
      exact ⟨c, hc, rfl, rfl, rfl, rfl, rfl⟩
  obtain ⟨c0, hc0mem, hfd, htd, huo, hpds, hcf⟩ := hc0
  obtain ⟨p, hp, hres⟩ := build_contexts_ok_inv hbuild c0 hc0mem
  obtain ⟨_, _, hcfd, hctd, _, ⟨u, humem, huf, hut, huval⟩,
    ⟨q, hqmem, hqf, hqt, hqval⟩, ⟨k, hkmem, hkf, hkt, hkval⟩⟩ :=
    resolve_segment_ok_some_inv hres
  refine ⟨?_, ?_, ?_⟩
  · intro hnone
    rcases fill_ts_data_gaps_decomp humem with hucrop | hudef
    · exfalso
      obtain ⟨d, hdmem, _, _, hdf, hdt, _⟩ := parse_ts_data_mem hucrop
      refine hnone ⟨d, hdmem, ?_, ?_⟩
      · rw [hfd, hcfd]
        omega
      · rw [htd, hctd]
        omega
    · rw [huo, huval, hudef]
  · intro hnone
    rcases fill_ts_data_gaps_decomp hqmem with hqcrop | hqdef
    · exfalso
      obtain ⟨d, hdmem, _, _, hdf, hdt, _⟩ := parse_ts_data_mem hqcrop
      refine hnone ⟨d, hdmem, ?_, ?_⟩
      · rw [hfd, hcfd]
        omega
      · rw [htd, hctd]
        omega
    · rw [hpds, hqval, hqdef]
  · intro hnone
    rcases fill_ts_data_gaps_decomp hkmem with hkcrop | hkdef
    · exfalso
      obtain ⟨d, hdmem, _, _, hdf, hdt, _⟩ := parse_ts_data_mem hkcrop
      refine hnone ⟨d, hdmem, ?_, ?_⟩
      · rw [hfd, hcfd]
        omega
      · rw [htd, hctd]
        omega
    · rw [hcf, hkval, hkdef]

theorem c7_witness :
    witCatalog.get "s1" 0 119 = .ok [witContext] ∧
    (∀ c ∈ [witContext],
      ((¬ ∃ d ∈ witSensor.different_utc_offsets,
          d.from_datetime ≤ c.from_datetime ∧
            c.to_datetime ≤ d.to_datetime) → c.utc_offset = 0) ∧
      ((¬ ∃ d ∈ witSensor.different_pressure_data_sources,
          d.from_datetime ≤ c.from_datetime ∧
            c.to_datetime ≤ d.to_datetime) →
        c.pressure_data_source = witSensor.sensor_id) ∧
      ((¬ ∃ d ∈ witSensor.different_calibration_factors,
          d.from_datetime ≤ c.from_datetime ∧
            c.to_datetime ≤ d.to_datetime) →
        c.calibration_factors =
          { pressure := 1,
            xco2 := { factors := [1], scheme := none, note := none },
            xch4 := { factors := [1], scheme := none, note := none },
            xco := { factors := [1], scheme := none, note := none } })) := by
  have hget : witCatalog.get "s1" 0 119 = .ok [witContext] := by decide
  exact ⟨hget, c7_default_fallback hget (by decide)⟩

/-! ## The abstract tiling theorem for the breakpoint segmentation

Over a sorted breakpoint list whose "cut" points (record ends of some series)
are never adjacent, never at the window start, and always followed exactly one
second later by the next breakpoint, the segments that survive filtering by
"does not start at a cut" tile the window contiguously. -/

def keptPairs (cut : Int → Bool) (segs : List (Int × Int)) :
    List (Int × Int) :=
  segs.filter (fun p => !cut p.1)

def toUnitRecord (p : Int × Int) : TimeseriesItem Unit := ⟨p.1, p.2, ()⟩

theorem mem_of_getLast? {α : Type} {l : List α} {a : α}
    (h : l.getLast? = some a) : a ∈ l := by
  induction l with
  | nil => simp at h
  | cons x l' ih =>
    cases l' with
    | nil =>
      simp at h
      simp [h]
    | cons y l'' =>
      rw [List.getLast?_cons_cons] at h
      exact List.mem_cons_of_mem _ (ih h)

theorem adjacentPairs_mem_cons {α : Type} {l : List α} {x : α} {p : α × α}
    (hp : p ∈ adjacentPairs l) : p ∈ adjacentPairs (x :: l) := by
  cases l with
  | nil => simp at hp
  | cons y l' =>
    rw [adjacentPairs_cons₂]
    exact List.mem_cons_of_mem _ hp

theorem tileAbs_aux (cut : Int → Bool) :
    ∀ (n : Nat) (B : List Int) (f t : Int), B.length ≤ n →
      B.head? = some f → B.getLast? = some t → f ≠ t →
      B.Pairwise (· < ·) →
      (∀ p ∈ adjacentPairs B, cut p.1 = true →
        p.2 = p.1 + 1 ∧ cut p.2 = false ∧ p.2 ≠ t) →
      (∀ p ∈ adjacentPairs B, cut p.1 = false → p.2 = t ∨ cut p.2 = true) →
      cut f = false →
      contiguousCover f t
        ((keptPairs cut (adjacentPairs B)).map toUnitRecord) = true := by
  intro n
  induction n with
  | zero =>
    intro B f t hlen hhead hlast hne hpw h2 h3 h0
    have : B = [] := List.length_eq_zero.mp (by omega)
    subst this
    simp at hhead
  | succ n ih =>
    intro B f t hlen hhead hlast hne hpw h2 h3 h0
    match B, hlen, hhead, hlast, hpw with
    | [], _, hhead, _, _ => simp at hhead
    | [b], _, hhead, hlast, _ =>
      simp at hhead hlast
      exact absurd (hhead.symm.trans hlast) hne
    | b :: b' :: rest, hlen, hhead, hlast, hpw =>
      have hfb : b = f := by
        simp at hhead
        exact hhead
      subst hfb
      have hbb' : b < b' := (List.pairwise_cons.mp hpw).1 b'
        (List.mem_cons_self _ _)
      have hmem_head : (b, b') ∈ adjacentPairs (b :: b' :: rest) := by
        rw [adjacentPairs_cons₂]
        exact List.mem_cons_self _ _
      by_cases hb't : b' = t
      · have hrest : rest = [] := by
          cases rest with
          | nil => rfl
          | cons c rest' =>
            exfalso
            have hlast' : (c :: rest').getLast? = some t := by
              rw [List.getLast?_cons_cons, List.getLast?_cons_cons] at hlast
              exact hlast
            have htmem : t ∈ c :: rest' := mem_of_getLast? hlast'
            have : b' < t := (List.pairwise_cons.mp
              (List.pairwise_cons.mp hpw).2).1 t htmem
            omega
        subst hrest
        subst hb't
        have hkept : keptPairs cut (adjacentPairs (b :: b' :: [])) =
            [(b, b')] := by
          rw [adjacentPairs_cons₂, adjacentPairs_singleton, keptPairs]
          simp [h0]
        rw [hkept]
        simp [toUnitRecord, contiguousCover]
        omega
      · have hcutb' : cut b' = true := by
          rcases h3 (b, b') hmem_head h0 with heq | hc
          · exact absurd heq hb't
          · exact hc
        cases rest with
        | nil =>
          exfalso
          simp at hlast
          exact hb't hlast
        | cons b'' rest' =>
          have hmem_snd : (b', b'') ∈ adjacentPairs (b :: b' :: b'' :: rest') := by
            rw [adjacentPairs_cons₂, adjacentPairs_cons₂]
            exact List.mem_cons_of_mem _ (List.mem_cons_self _ _)
          obtain ⟨hb''eq, hcutb'', hb''ne⟩ := h2 (b', b'') hmem_snd hcutb'
          have hlast' : (b'' :: rest').getLast? = some t := by
            rw [List.getLast?_cons_cons, List.getLast?_cons_cons] at hlast
            exact hlast
          have hsub : ∀ p ∈ adjacentPairs (b'' :: rest'),
              p ∈ adjacentPairs (b :: b' :: b'' :: rest') :=
            fun p hp => adjacentPairs_mem_cons (adjacentPairs_mem_cons hp)
          have ihres := ih (b'' :: rest') b'' t
            (by simp at hlen ⊢; omega) rfl hlast' hb''ne
            (List.pairwise_cons.mp (List.pairwise_cons.mp hpw).2).2
            (fun p hp => h2 p (hsub p hp))
            (fun p hp => h3 p (hsub p hp)) hcutb''
          have hkept : keptPairs cut
              (adjacentPairs (b :: b' :: b'' :: rest')) =
              (b, b') :: keptPairs cut (adjacentPairs (b'' :: rest')) := by
            rw [adjacentPairs_cons₂, adjacentPairs_cons₂, keptPairs,
              List.filter_cons, List.filter_cons]
            simp only [h0, hcutb']
            rfl
          rw [hkept]
          rw [List.map_cons]
          refine contiguousCover_cons_of rfl (by simp [toUnitRecord]; omega)
            ?_ ?_
          · intro hcon
            exact contiguousCover_ne_nil ihres hcon
          · show contiguousCover ((toUnitRecord (b, b')).to_datetime + 1) t _ = true
            have : (toUnitRecord (b, b')).to_datetime + 1 = b'' := by
              simp [toUnitRecord]
              omega
            rw [this]
            exact ihres

theorem tileAbs (cut : Int → Bool) (B : List Int) (f t : Int)
    (hhead : B.head? = some f) (hlast : B.getLast? = some t) (hne : f ≠ t)
    (hpw : B.Pairwise (· < ·))
    (h2 : ∀ p ∈ adjacentPairs B, cut p.1 = true →
      p.2 = p.1 + 1 ∧ cut p.2 = false ∧ p.2 ≠ t)
    (h3 : ∀ p ∈ adjacentPairs B, cut p.1 = false → p.2 = t ∨ cut p.2 = true)
    (h0 : cut f = false) :
    contiguousCover f t
      ((keptPairs cut (adjacentPairs B)).map toUnitRecord) = true :=
  tileAbs_aux cut B.length B f t le_rfl hhead hlast hne hpw h2 h3 h0

/-! ## Segment emission: a segment is skipped iff it starts at a record end -/

/-- `cutAt ... b` holds iff `b` is the `to_datetime` of a record of one of
the four processed series.  These are exactly the breakpoints at which the
following one-second segment has no covering record in that series. -/
def cutAt (sls : List (TimeseriesItem String)) (uos : List (TimeseriesItem Rat))
    (pdss : List (TimeseriesItem String))
    (cfs : List (TimeseriesItem CalibrationFactors)) (x : Int) : Bool :=
  decide ((∃ r ∈ sls, r.to_datetime = x) ∨ (∃ r ∈ uos, r.to_datetime = x) ∨
    (∃ r ∈ pdss, r.to_datetime = x) ∨ (∃ r ∈ cfs, r.to_datetime = x))

theorem resolve_segment_none_of_cut {f t b b' : Int}
    (locs : List LocationMetadata) (sid : String) (serial : Int)
    {sls : List (TimeseriesItem String)} {uos : List (TimeseriesItem Rat)}
    {pdss : List (TimeseriesItem String)}
    {cfs : List (TimeseriesItem CalibrationFactors)}
    (hcovL : contiguousCover f t sls = true)
    (hcovU : contiguousCover f t uos = true)
    (hcovP : contiguousCover f t pdss = true)
    (hcovC : contiguousCover f t cfs = true)
    (hb : f ≤ b) (hbb' : b < b') (hb't : b' ≤ t)
    (hsuccL : ∀ r ∈ sls, r.to_datetime ≤ b ∨ b' ≤ r.to_datetime)
    (hsuccU : ∀ r ∈ uos, r.to_datetime ≤ b ∨ b' ≤ r.to_datetime)
    (hsuccP : ∀ r ∈ pdss, r.to_datetime ≤ b ∨ b' ≤ r.to_datetime)
    (hcut : cutAt sls uos pdss cfs b = true) :
    resolve_segment locs sid serial sls uos pdss cfs b b' = .ok none := by
  rw [cutAt, decide_eq_true_eq] at hcut
  by_cases hL : ∃ r ∈ sls, r.to_datetime = b
  · obtain ⟨r, hr, hrtd⟩ := hL
    have hgsp : get_segment_property b b' sls = .ok none := by
      rw [get_segment_property,
        segmentCandidates_eq_nil_of_end hcovL hbb' hr hrtd]
    rw [resolve_segment, hgsp]
  · have hnotendL : ∀ r ∈ sls, r.to_datetime ≠ b := by
      push_neg at hL
      exact hL
    obtain ⟨slr, hslmem, hslc, _, _⟩ :=
      segmentCandidates_eq_singleton hcovL hb hbb' hb't hnotendL hsuccL
    have hgspL : get_segment_property b b' sls = .ok (some slr) := by
      rw [get_segment_property, hslc]
    by_cases hU : ∃ r ∈ uos, r.to_datetime = b
    · obtain ⟨r, hr, hrtd⟩ := hU
      have hgspU : get_segment_property b b' uos = .ok none := by
        rw [get_segment_property,
          segmentCandidates_eq_nil_of_end hcovU hbb' hr hrtd]
      rw [resolve_segment, hgspL, hgspU]
    · have hnotendU : ∀ r ∈ uos, r.to_datetime ≠ b := by
        push_neg at hU
        exact hU
      obtain ⟨uor, huomem, huoc, _, _⟩ :=
        segmentCandidates_eq_singleton hcovU hb hbb' hb't hnotendU hsuccU
      have hgspU : get_segment_property b b' uos = .ok (some uor) := by
        rw [get_segment_property, huoc]
      by_cases hP : ∃ r ∈ pdss, r.to_datetime = b
      · obtain ⟨r, hr, hrtd⟩ := hP
        have hgspP : get_segment_property b b' pdss = .ok none := by
          rw [get_segment_property,
            segmentCandidates_eq_nil_of_end hcovP hbb' hr hrtd]
        rw [resolve_segment, hgspL, hgspU, hgspP]
      · have hnotendP : ∀ r ∈ pdss, r.to_datetime ≠ b := by
          push_neg at hP
          exact hP
        obtain ⟨pdr, hpdmem, hpdc, _, _⟩ :=
          segmentCandidates_eq_singleton hcovP hb hbb' hb't hnotendP hsuccP
        have hgspP : get_segment_property b b' pdss = .ok (some pdr) := by
          rw [get_segment_property, hpdc]
        have hC : ∃ r ∈ cfs, r.to_datetime = b := by
          rcases hcut with h | h | h | h
          · exact absurd h hL
          · exact absurd h hU
          · exact absurd h hP
          · exact h
        obtain ⟨r, hr, hrtd⟩ := hC
        have hgspC : get_segment_property b b' cfs = .ok none := by
          rw [get_segment_property,
            segmentCandidates_eq_nil_of_end hcovC hbb' hr hrtd]
        rw [resolve_segment, hgspL, hgspU, hgspP, hgspC]

theorem resolve_segment_some_of_not_cut {f t b b' : Int}
    (locs : List LocationMetadata) (sid : String) (serial : Int)
    {sls : List (TimeseriesItem String)} {uos : List (TimeseriesItem Rat)}
    {pdss : List (TimeseriesItem String)}
    {cfs : List (TimeseriesItem CalibrationFactors)}
    (hcovL : contiguousCover f t sls = true)
    (hcovU : contiguousCover f t uos = true)
    (hcovP : contiguousCover f t pdss = true)
    (hcovC : contiguousCover f t cfs = true)
    (hb : f ≤ b) (hbb' : b < b') (hb't : b' ≤ t)
    (hsuccL : ∀ r ∈ sls, r.to_datetime ≤ b ∨ b' ≤ r.to_datetime)
    (hsuccU : ∀ r ∈ uos, r.to_datetime ≤ b ∨ b' ≤ r.to_datetime)
    (hsuccP : ∀ r ∈ pdss, r.to_datetime ≤ b ∨ b' ≤ r.to_datetime)
    (hsuccC : ∀ r ∈ cfs, r.to_datetime ≤ b ∨ b' ≤ r.to_datetime)
    (href : ∀ r ∈ sls,
      (locs.find? (fun l => l.location_id == r.value)).isSome)
    (hcut : cutAt sls uos pdss cfs b = false) :
    ∃ c, resolve_segment locs sid serial sls uos pdss cfs b b' =
      .ok (some c) ∧ c.from_datetime = b ∧ c.to_datetime = b' := by
  rw [cutAt, decide_eq_false_iff_not] at hcut
  push_neg at hcut
  obtain ⟨hL, hU, hP, hC⟩ := hcut
  obtain ⟨slr, hslmem, hslc, _, _⟩ :=
    segmentCandidates_eq_singleton hcovL hb hbb' hb't hL hsuccL
  obtain ⟨uor, huomem, huoc, _, _⟩ :=
    segmentCandidates_eq_singleton hcovU hb hbb' hb't hU hsuccU
  obtain ⟨pdr, hpdmem, hpdc, _, _⟩ :=
    segmentCandidates_eq_singleton hcovP hb hbb' hb't hP hsuccP
  obtain ⟨cfr, hcfmem, hcfc, _, _⟩ :=
    segmentCandidates_eq_singleton hcovC hb hbb' hb't hC hsuccC
  have hgspL : get_segment_property b b' sls = .ok (some slr) := by
    rw [get_segment_property, hslc]
  have hgspU : get_segment_property b b' uos = .ok (some uor) := by
    rw [get_segment_property, huoc]
  have hgspP : get_segment_property b b' pdss = .ok (some pdr) := by
    rw [get_segment_property, hpdc]
  have hgspC : get_segment_property b b' cfs = .ok (some cfr) := by
    rw [get_segment_property, hcfc]
  obtain ⟨loc, hloc⟩ := Option.isSome_iff_exists.mp (href slr hslmem)
  refine ⟨{ sensor_id := sid
            serial_number := serial
            from_datetime := b
            to_datetime := b'
            location := loc
            utc_offset := uor.value
            pressure_data_source := pdr.value
            calibration_factors := cfr.value
            multiple_ctx_on_this_date := false }, ?_, rfl, rfl⟩
  rw [resolve_segment, hgspL, hgspU, hgspP, hgspC]
  simp only [hloc]

theorem build_contexts_eq_keptPairs {f t : Int} {locs : List LocationMetadata}
    {sid : String} {serial : Int} {sls : List (TimeseriesItem String)}
    {uos : List (TimeseriesItem Rat)} {pdss : List (TimeseriesItem String)}
    {cfs : List (TimeseriesItem CalibrationFactors)} {B : List Int}
    (hcovL : contiguousCover f t sls = true)
    (hcovU : contiguousCover f t uos = true)
    (hcovP : contiguousCover f t pdss = true)
    (hcovC : contiguousCover f t cfs = true)
    (href : ∀ r ∈ sls,
      (locs.find? (fun l => l.location_id == r.value)).isSome)
    (hpwB : B.Pairwise (· < ·))
    (hmemB : ∀ x, x ∈ B ↔ x ∈ endpointsOf sls uos pdss cfs)
    (hbounds : ∀ x ∈ B, f ≤ x ∧ x ≤ t) :
    ∀ segs, (∀ p ∈ segs, p ∈ adjacentPairs B) →
      ∃ cs, build_contexts locs sid serial sls uos pdss cfs segs = .ok cs ∧
        cs.map (fun c => (c.from_datetime, c.to_datetime)) =
          keptPairs (cutAt sls uos pdss cfs) segs := by
  intro segs
  induction segs with
  | nil =>
    intro _
    exact ⟨[], rfl, rfl⟩
  | cons p ps ih =>
    intro hsegs
    have hp := hsegs p (List.mem_cons_self _ _)
    obtain ⟨hlt, hclosure⟩ := sorted_adjacent hpwB hp
    obtain ⟨hmem1, hmem2⟩ := adjacentPairs_mem hp
    have hb : f ≤ p.1 := (hbounds p.1 hmem1).1
    have hb't : p.2 ≤ t := (hbounds p.2 hmem2).2
    have hsuccL : ∀ r ∈ sls, r.to_datetime ≤ p.1 ∨ p.2 ≤ r.to_datetime :=
      fun r hr => hclosure r.to_datetime ((hmemB r.to_datetime).mpr
        ((endpointsOf_mem_iff sls uos pdss cfs r.to_datetime).mpr
          (Or.inl ⟨r, hr, Or.inr rfl⟩)))
    have hsuccU : ∀ r ∈ uos, r.to_datetime ≤ p.1 ∨ p.2 ≤ r.to_datetime :=
      fun r hr => hclosure r.to_datetime ((hmemB r.to_datetime).mpr
        ((endpointsOf_mem_iff sls uos pdss cfs r.to_datetime).mpr
          (Or.inr (Or.inl ⟨r, hr, Or.inr rfl⟩))))
    have hsuccP : ∀ r ∈ pdss, r.to_datetime ≤ p.1 ∨ p.2 ≤ r.to_datetime :=
      fun r hr => hclosure r.to_datetime ((hmemB r.to_datetime).mpr
        ((endpointsOf_mem_iff sls uos pdss cfs r.to_datetime).mpr
          (Or.inr (Or.inr (Or.inl ⟨r, hr, Or.inr rfl⟩)))))
    have hsuccC : ∀ r ∈ cfs, r.to_datetime ≤ p.1 ∨ p.2 ≤ r.to_datetime :=
      fun r hr => hclosure r.to_datetime ((hmemB r.to_datetime).mpr
        ((endpointsOf_mem_iff sls uos pdss cfs r.to_datetime).mpr
          (Or.inr (Or.inr (Or.inr ⟨r, hr, Or.inr rfl⟩)))))
    obtain ⟨cs', hbs, hmap⟩ := ih (fun q hq => hsegs q (List.mem_cons_of_mem _ hq))
    by_cases hcut : cutAt sls uos pdss cfs p.1 = true
    · have hres := resolve_segment_none_of_cut locs sid serial
        hcovL hcovU hcovP hcovC hb hlt hb't hsuccL hsuccU
        hsuccP hcut
      refine ⟨cs', ?_, ?_⟩
      · rw [build_contexts, hres]
        exact hbs
      · rw [hmap, keptPairs, keptPairs, List.filter_cons, hcut]
        simp
    · have hres := resolve_segment_some_of_not_cut locs sid serial
        hcovL hcovU hcovP hcovC hb hlt hb't hsuccL hsuccU
        hsuccP hsuccC href (Bool.eq_false_iff.mpr hcut)
      obtain ⟨c, hceq, hcfd, hctd⟩ := hres
      refine ⟨c :: cs', ?_, ?_⟩
      · rw [build_contexts, hceq, hbs]
      · rw [List.map_cons, hmap, keptPairs, keptPairs, List.filter_cons]
        rw [Bool.eq_false_iff.mpr hcut]
        simp [hcfd, hctd]


/-- The core tiling argument: if all four processed series are contiguous
covers of a minute-aligned window whose record ends are minute-aligned (or
equal to the window end), and the location ids of the cropped location series
resolve, then the breakpoint loop succeeds and the built contexts are a
contiguous cover of the window. -/
theorem build_tiling {f t : Int} (locs : List LocationMetadata) (sid : String)
    (serial : Int) {sls : List (TimeseriesItem String)}
    {uos : List (TimeseriesItem Rat)} {pdss : List (TimeseriesItem String)}
    {cfs : List (TimeseriesItem CalibrationFactors)}
    (hflt : f < t) (hf60 : f % 60 = 0) (ht60 : t % 60 = 59)
    (hcovL : contiguousCover f t sls = true)
    (hcovU : contiguousCover f t uos = true)
    (hcovP : contiguousCover f t pdss = true)
    (hcovC : contiguousCover f t cfs = true)
    (hendsL : ∀ r ∈ sls, r.to_datetime % 60 = 59 ∨ r.to_datetime = t)
    (hendsU : ∀ r ∈ uos, r.to_datetime % 60 = 59 ∨ r.to_datetime = t)
    (hendsP : ∀ r ∈ pdss, r.to_datetime % 60 = 59 ∨ r.to_datetime = t)
    (hendsC : ∀ r ∈ cfs, r.to_datetime % 60 = 59 ∨ r.to_datetime = t)
    (href : ∀ r ∈ sls,
      (locs.find? (fun l => l.location_id == r.value)).isSome) :
    ∃ cs, build_contexts locs sid serial sls uos pdss cfs
        (adjacentPairs (breakpointsOf sls uos pdss cfs)) = .ok cs ∧
      contiguousCover f t
        (cs.map (fun c => toUnitRecord (c.from_datetime, c.to_datetime))) =
        true := by
  have hpwB := breakpointsOf_pairwise sls uos pdss cfs
  have hmemB := breakpointsOf_mem sls uos pdss cfs
  have hmemE := endpointsOf_mem_iff sls uos pdss cfs
  have hbounds : ∀ x ∈ breakpointsOf sls uos pdss cfs, f ≤ x ∧ x ≤ t := by
    intro x hx
    have hx' := (hmemE x).mp ((hmemB x).mp hx)
    rcases hx' with ⟨r, hr, he⟩ | ⟨r, hr, he⟩ | ⟨r, hr, he⟩ | ⟨r, hr, he⟩
    · have := contiguousCover_mem hcovL r hr
      rcases he with he | he <;> omega
    · have := contiguousCover_mem hcovU r hr
      rcases he with he | he <;> omega
    · have := contiguousCover_mem hcovP r hr
      rcases he with he | he <;> omega
    · have := contiguousCover_mem hcovC r hr
      rcases he with he | he <;> omega
  have hfmem : f ∈ breakpointsOf sls uos pdss cfs := by
    obtain ⟨r, hr, hrf, hrt⟩ := contiguousCover_covers hcovL le_rfl
      (le_of_lt hflt)
    have hrb := contiguousCover_mem hcovL r hr
    exact (hmemB f).mpr ((hmemE f).mpr (Or.inl ⟨r, hr, Or.inl (by omega)⟩))
  have htmem : t ∈ breakpointsOf sls uos pdss cfs := by
    obtain ⟨r, hr, hrf, hrt⟩ := contiguousCover_covers hcovL
      (le_of_lt hflt) le_rfl
    have hrb := contiguousCover_mem hcovL r hr
    exact (hmemB t).mpr ((hmemE t).mpr (Or.inl ⟨r, hr, Or.inr (by omega)⟩))
  have hhead := sorted_head_eq hpwB hfmem (fun x hx => (hbounds x hx).1)
  have hlastB := sorted_last_eq hpwB htmem (fun x hx => (hbounds x hx).2)
  have hcutal : ∀ x : Int, cutAt sls uos pdss cfs x = true →
      x % 60 = 59 ∨ x = t := by
    intro x hcx
    rw [cutAt, decide_eq_true_eq] at hcx
    rcases hcx with ⟨r, hr, he⟩ | ⟨r, hr, he⟩ | ⟨r, hr, he⟩ | ⟨r, hr, he⟩
    · have := hendsL r hr
      omega
    · have := hendsU r hr
      omega
    · have := hendsP r hr
      omega
    · have := hendsC r hr
      omega
  have h0 : cutAt sls uos pdss cfs f = false := by
    by_contra hcon
    have := hcutal f (Bool.not_eq_false _ ▸ hcon)
    omega
  have h2 : ∀ p ∈ adjacentPairs (breakpointsOf sls uos pdss cfs),
      cutAt sls uos pdss cfs p.1 = true →
      p.2 = p.1 + 1 ∧ cutAt sls uos pdss cfs p.2 = false ∧ p.2 ≠ t := by
    intro p hp hcutp
    obtain ⟨hlt, hclosure⟩ := sorted_adjacent hpwB hp
    obtain ⟨hm1, hm2⟩ := adjacentPairs_mem hp
    have hb2t := (hbounds p.2 hm2).2
    have halp1 : p.1 % 60 = 59 := by
      have := hcutal p.1 hcutp
      omega
    have hnext : p.1 + 1 ∈ endpointsOf sls uos pdss cfs := by
      rw [cutAt, decide_eq_true_eq] at hcutp
      rcases hcutp with ⟨r, hr, he⟩ | ⟨r, hr, he⟩ | ⟨r, hr, he⟩ | ⟨r, hr, he⟩
      · obtain ⟨r', hr', hfd⟩ := contiguousCover_next hcovL hr (by omega)
        exact (hmemE _).mpr (Or.inl ⟨r', hr', Or.inl (by omega)⟩)
      · obtain ⟨r', hr', hfd⟩ := contiguousCover_next hcovU hr (by omega)
        exact (hmemE _).mpr (Or.inr (Or.inl ⟨r', hr', Or.inl (by omega)⟩))
      · obtain ⟨r', hr', hfd⟩ := contiguousCover_next hcovP hr (by omega)
        exact (hmemE _).mpr
          (Or.inr (Or.inr (Or.inl ⟨r', hr', Or.inl (by omega)⟩)))
      · obtain ⟨r', hr', hfd⟩ := contiguousCover_next hcovC hr (by omega)
        exact (hmemE _).mpr
          (Or.inr (Or.inr (Or.inr ⟨r', hr', Or.inl (by omega)⟩)))
    have hnextB := (hmemB _).mpr hnext
    have heq : p.2 = p.1 + 1 := by
      rcases hclosure (p.1 + 1) hnextB with h | h <;> omega
    refine ⟨heq, ?_, ?_⟩
    · by_contra hcon
      have := hcutal p.2 (Bool.not_eq_false _ ▸ hcon)
      omega
    · intro hcon
      omega
  have h3 : ∀ p ∈ adjacentPairs (breakpointsOf sls uos pdss cfs),
      cutAt sls uos pdss cfs p.1 = false →
      p.2 = t ∨ cutAt sls uos pdss cfs p.2 = true := by
    intro p hp hcutp
    by_cases h2t : p.2 = t
    · exact Or.inl h2t
    right
    obtain ⟨hlt, hclosure⟩ := sorted_adjacent hpwB hp
    obtain ⟨hm1, hm2⟩ := adjacentPairs_mem hp
    have hb1f := (hbounds p.1 hm1).1
    have hx' := (hmemE p.2).mp ((hmemB p.2).mp hm2)
    have hcut1 : ∀ r' ∈ sls, r'.to_datetime = p.1 → False := by
      intro r' hr' he'
      have : cutAt sls uos pdss cfs p.1 = true := by
        rw [cutAt, decide_eq_true_eq]
        exact Or.inl ⟨r', hr', he'⟩
      rw [this] at hcutp
      exact absurd hcutp (by simp)
    have hcut2 : ∀ r' ∈ uos, r'.to_datetime = p.1 → False := by
      intro r' hr' he'
      have : cutAt sls uos pdss cfs p.1 = true := by
        rw [cutAt, decide_eq_true_eq]
        exact Or.inr (Or.inl ⟨r', hr', he'⟩)
      rw [this] at hcutp
      exact absurd hcutp (by simp)
    have hcut3 : ∀ r' ∈ pdss, r'.to_datetime = p.1 → False := by
      intro r' hr' he'
      have : cutAt sls uos pdss cfs p.1 = true := by
        rw [cutAt, decide_eq_true_eq]
        exact Or.inr (Or.inr (Or.inl ⟨r', hr', he'⟩))
      rw [this] at hcutp
      exact absurd hcutp (by simp)
    have hcut4 : ∀ r' ∈ cfs, r'.to_datetime = p.1 → False := by
      intro r' hr' he'
      have : cutAt sls uos pdss cfs p.1 = true := by
        rw [cutAt, decide_eq_true_eq]
        exact Or.inr (Or.inr (Or.inr ⟨r', hr', he'⟩))
      rw [this] at hcutp
      exact absurd hcutp (by simp)
    rcases hx' with ⟨r, hr, he | he⟩ | ⟨r, hr, he | he⟩ | ⟨r, hr, he | he⟩ |
      ⟨r, hr, he | he⟩
    · exfalso
      obtain ⟨r', hr', htd⟩ := contiguousCover_prev hcovL hr (by omega)
      have hmemB' : r'.to_datetime ∈ breakpointsOf sls uos pdss cfs :=
        (hmemB _).mpr ((hmemE _).mpr (Or.inl ⟨r', hr', Or.inr rfl⟩))
      have : r'.to_datetime = p.1 := by
        rcases hclosure r'.to_datetime hmemB' with h | h <;> omega
      exact hcut1 r' hr' this
    · rw [cutAt, decide_eq_true_eq]
      exact Or.inl ⟨r, hr, he.symm⟩
    · exfalso
      obtain ⟨r', hr', htd⟩ := contiguousCover_prev hcovU hr (by omega)
      have hmemB' : r'.to_datetime ∈ breakpointsOf sls uos pdss cfs :=
        (hmemB _).mpr ((hmemE _).mpr (Or.inr (Or.inl ⟨r', hr', Or.inr rfl⟩)))
      have : r'.to_datetime = p.1 := by
        rcases hclosure r'.to_datetime hmemB' with h | h <;> omega
      exact hcut2 r' hr' this
    · rw [cutAt, decide_eq_true_eq]
      exact Or.inr (Or.inl ⟨r, hr, he.symm⟩)
    · exfalso
      obtain ⟨r', hr', htd⟩ := contiguousCover_prev hcovP hr (by omega)
      have hmemB' : r'.to_datetime ∈ breakpointsOf sls uos pdss cfs :=
        (hmemB _).mpr ((hmemE _).mpr
          (Or.inr (Or.inr (Or.inl ⟨r', hr', Or.inr rfl⟩))))
      have : r'.to_datetime = p.1 := by
        rcases hclosure r'.to_datetime hmemB' with h | h <;> omega
      exact hcut3 r' hr' this
    · rw [cutAt, decide_eq_true_eq]
      exact Or.inr (Or.inr (Or.inl ⟨r, hr, he.symm⟩))
    · exfalso
      obtain ⟨r', hr', htd⟩ := contiguousCover_prev hcovC hr (by omega)
      have hmemB' : r'.to_datetime ∈ breakpointsOf sls uos pdss cfs :=
        (hmemB _).mpr ((hmemE _).mpr
          (Or.inr (Or.inr (Or.inr ⟨r', hr', Or.inr rfl⟩))))
      have : r'.to_datetime = p.1 := by
        rcases hclosure r'.to_datetime hmemB' with h | h <;> omega
      exact hcut4 r' hr' this
    · rw [cutAt, decide_eq_true_eq]
      exact Or.inr (Or.inr (Or.inr ⟨r, hr, he.symm⟩))
  have htile := tileAbs (cutAt sls uos pdss cfs)
    (breakpointsOf sls uos pdss cfs) f t hhead hlastB (by omega) hpwB h2 h3 h0
  obtain ⟨cs, hbs, hmap⟩ := build_contexts_eq_keptPairs hcovL hcovU hcovP
    hcovC href hpwB hmemB hbounds
    (adjacentPairs (breakpointsOf sls uos pdss cfs)) (fun p hp => hp)
  refine ⟨cs, hbs, ?_⟩
  rw [← hmap, List.map_map] at htile
  exact htile

/-- C1 (amended, proved): for a catalog whose series carry the
construction-time invariants (sorted, non-overlapping, minute-aligned
records with `from_datetime < to_datetime`, referenced location ids
resolvable), a minute-aligned query window (`from` on second 0, `to` on
second 59, `from ≤ to`), and a sensor whose cropped location series
contiguously covers the window, `get` returns contexts that partition
`[from, to]` exactly: an instant lies in the window iff it lies in one of
the returned closed intervals, the intervals are pairwise non-overlapping,
and consecutive contexts satisfy `to_datetime + 1 = from_datetime`. -/
theorem c1_partition_amended (iface : EM27MetadataInterface) (sid : String)
    (f t : Int) (s : SensorMetadata)
    (hfind : iface.sensors.find? (fun x => x.sensor_id == sid) = some s)
    (hft : f ≤ t) (hf60 : f % 60 = 0) (ht60 : t % 60 = 59)
    (halL : ∀ r ∈ s.locations,
      r.from_datetime % 60 = 0 ∧ r.to_datetime % 60 = 59)
    (hpwU : s.different_utc_offsets.Pairwise
      (fun a c => a.to_datetime < c.from_datetime))
    (hwfU : ∀ r ∈ s.different_utc_offsets, r.from_datetime < r.to_datetime)
    (halU : ∀ r ∈ s.different_utc_offsets,
      r.from_datetime % 60 = 0 ∧ r.to_datetime % 60 = 59)
    (hpwP : s.different_pressure_data_sources.Pairwise
      (fun a c => a.to_datetime < c.from_datetime))
    (hwfP : ∀ r ∈ s.different_pressure_data_sources,
      r.from_datetime < r.to_datetime)
    (halP : ∀ r ∈ s.different_pressure_data_sources,
      r.from_datetime % 60 = 0 ∧ r.to_datetime % 60 = 59)
    (hpwC : s.different_calibration_factors.Pairwise
      (fun a c => a.to_datetime < c.from_datetime))
    (hwfC : ∀ r ∈ s.different_calibration_factors,
      r.from_datetime < r.to_datetime)
    (halC : ∀ r ∈ s.different_calibration_factors,
      r.from_datetime % 60 = 0 ∧ r.to_datetime % 60 = 59)
    (href : ∀ r ∈ s.locations,
      ∃ loc ∈ iface.locations, loc.location_id = r.value)
    (hcover : contiguousCover f t (parse_ts_data f t s.locations) = true)
    {ctxs : List SensorDataContext}
    (hget : iface.get sid f t = .ok ctxs) :
    (∀ x : Int, (f ≤ x ∧ x ≤ t) ↔
      ∃ c ∈ ctxs, c.from_datetime ≤ x ∧ x ≤ c.to_datetime) ∧
    ctxs.Pairwise (fun c c' => c.to_datetime < c'.from_datetime) ∧
    ctxs.Chain' (fun c c' => c.to_datetime + 1 = c'.from_datetime) := by
  have hflt : f < t := by omega
  obtain ⟨s', hfind', hft', cs, hbuild, hctxs⟩ := get_ok_inv hget
  rw [hfind] at hfind'
  injection hfind' with hs'
  subst hs'
  have hpwU' := parse_ts_data_pairwise f t hpwU
  have hbdU := parse_ts_data_bounds hft (fun r hr => le_of_lt (hwfU r hr))
  have hcovU := fill_ts_data_gaps_cover (v := (0 : Rat)) hft hpwU' hbdU
  have hpwP' := parse_ts_data_pairwise f t hpwP
  have hbdP := parse_ts_data_bounds hft (fun r hr => le_of_lt (hwfP r hr))
  have hcovP := fill_ts_data_gaps_cover (v := s.sensor_id) hft hpwP' hbdP
  have hpwC' := parse_ts_data_pairwise f t hpwC
  have hbdC := parse_ts_data_bounds hft (fun r hr => le_of_lt (hwfC r hr))
  have hcovC := fill_ts_data_gaps_cover (v := ({} : CalibrationFactors)) hft
    hpwC' hbdC
  have hendsL : ∀ r ∈ parse_ts_data f t s.locations,
      r.to_datetime % 60 = 59 ∨ r.to_datetime = t :=
    fun r hr => (parse_ts_data_aligned halL r hr).2
  have hendsU := fill_ts_data_gaps_ends_aligned (v := (0 : Rat)) hflt hf60
    ht60 hpwU' hbdU (parse_ts_data_aligned halU)
  have hendsP := fill_ts_data_gaps_ends_aligned (v := s.sensor_id) hflt hf60
    ht60 hpwP' hbdP (parse_ts_data_aligned halP)
  have hendsC := fill_ts_data_gaps_ends_aligned
    (v := ({} : CalibrationFactors)) hflt hf60 ht60 hpwC' hbdC
    (parse_ts_data_aligned halC)
  have href' : ∀ r ∈ parse_ts_data f t s.locations,
      (iface.locations.find? (fun l => l.location_id == r.value)).isSome := by
    intro r hr
    obtain ⟨d, hdmem, _, _, _, _, hval⟩ := parse_ts_data_mem hr
    obtain ⟨loc, hlocmem, hlocid⟩ := href d hdmem
    rw [List.find?_isSome]
    exact ⟨loc, hlocmem, by simp [hlocid, hval]⟩
  obtain ⟨cs', hbs', htile⟩ := build_tiling iface.locations
    s.sensor_id s.serial_number hflt hf60 ht60 hcover
    hcovU hcovP hcovC hendsL hendsU hendsP hendsC href'
  rw [hbuild] at hbs'
  injection hbs' with hcs'
  subst hcs'
  have hctxseq :
      ctxs.map (fun c => toUnitRecord (c.from_datetime, c.to_datetime)) =
        cs.map (fun c => toUnitRecord (c.from_datetime, c.to_datetime)) := by
    rw [hctxs]
    by_cases hlen : cs.length > 1
    · rw [if_pos hlen, List.map_map]
      rfl
    · rw [if_neg hlen]
  have hcovctx : contiguousCover f t
      (ctxs.map (fun c => toUnitRecord (c.from_datetime, c.to_datetime))) =
      true := by
    rw [hctxseq]
    exact htile
  refine ⟨?_, ?_, ?_⟩
  · intro x
    constructor
    · rintro ⟨hx1, hx2⟩
      obtain ⟨rec, hrecmem, hrf, hrt⟩ :=
        contiguousCover_covers hcovctx hx1 hx2
      obtain ⟨c, hc, hceq⟩ := List.mem_map.mp hrecmem
      refine ⟨c, hc, ?_, ?_⟩
      · rw [← hceq] at hrf
        exact hrf
      · rw [← hceq] at hrt
        exact hrt
    · rintro ⟨c, hc, h1x, h2x⟩
      have hb := contiguousCover_mem hcovctx _ (List.mem_map_of_mem _ hc)
      simp only [toUnitRecord] at hb
      exact ⟨by omega, by omega⟩
  · have hq := contiguousCover_pairwise hcovctx
    rw [List.pairwise_map] at hq
    exact hq
  · have hq := contiguousCover_chain' hcovctx
    rw [List.chain'_map] at hq
    exact hq

def witContextB : SensorDataContext := { witContext with to_datetime := 59 }

/-- C1 counterexample: the catalog `witCatalogB` passes construction-time
validation and `"s1"` is a sensor of it, the window `[0, 119]` satisfies
`from ≤ to`, yet `get` returns the single context `[0, 59]`: the instant
`60` of the window is covered by no returned context, so the returned
contexts do not partition `[0, 119]` as the claim states. -/
theorem c1_counterexample :
    mkEM27MetadataInterface [witLoc] [witSensorB] [] = .ok witCatalogB ∧
    (0 : Int) ≤ 119 ∧
    witCatalogB.get "s1" 0 119 = .ok [witContextB] ∧
    ((0 : Int) ≤ 60 ∧ (60 : Int) ≤ 119) ∧
    (∀ c ∈ [witContextB],
      ¬ (c.from_datetime ≤ 60 ∧ (60 : Int) ≤ c.to_datetime)) := by
  decide

theorem c1_witness :
    ((0 : Int) ≤ 119 ∧ (0 : Int) % 60 = 0 ∧ (119 : Int) % 60 = 59 ∧
      contiguousCover 0 119 (parse_ts_data 0 119 witSensor.locations) = true ∧
      witCatalog.get "s1" 0 119 = .ok [witContext]) ∧
    ((∀ x : Int, ((0 : Int) ≤ x ∧ x ≤ 119) ↔
      ∃ c ∈ [witContext], c.from_datetime ≤ x ∧ x ≤ c.to_datetime) ∧
      [witContext].Pairwise
        (fun c c' => c.to_datetime < c'.from_datetime) ∧
      [witContext].Chain'
        (fun c c' => c.to_datetime + 1 = c'.from_datetime)) := by
  have hget : witCatalog.get "s1" 0 119 = .ok [witContext] := by decide
  refine ⟨⟨by decide, by decide, by decide, by decide, hget⟩, ?_⟩
  exact c1_partition_amended witCatalog "s1" 0 119 witSensor (by decide)
    (by decide) (by decide) (by decide) (by decide) (by decide) (by decide)
    (by decide) (by decide) (by decide) (by decide) (by decide) (by decide)
    (by decide) (by decide) (by decide) hget
